import Mathlib

/-!
# Service controller of `stservice` (CoolQ-Golang-Plugin)

A shallow embedding of `src/stservice/stservice.go` and a verification of its
registration and tiered dispatch behaviour.

Modelling conventions.

* A Go `map[K]V` is an association list (`GoMap`); `lookup` is the two-valued
  read `v, ok := m[k]`, `store` is the assignment `m[k] = v`.  The functions do
  not require the list to have distinct keys; that it has is an invariant proved
  for every controller built by `NewController` and `RegisterService`.  Both
  maps of a controller are allocated, as `NewController` leaves them.
* The order in which `for key := range m` yields the keys is unspecified in Go.
  The dispatch functions therefore take the yielded order as an argument
  (`rangeOrder`), constrained in the theorems to be a permutation of the keys.
* `sort.Ints` is library code; it is modelled by insertion sort on `Int`.
* A handler (`ISTService`) is external code with private mutable state.  All
  handler state lives in one world value of type `σ`; a method is a function
  from the world to its results and the new world.  Handlers are non-nil, their
  methods return, and they do not call back into the controller; handlers that
  call `RegisterService` while they are invoked are treated apart, by
  `OnGroupMsgRe` and `OnPrivateMsgRe`.
* Every handler call made by the controller is recorded, in order, in a trace
  (`Invocation`): the name of the record whose handler was called, the
  arguments, the `post` flag and the two values the handler returned.
* `int`, `int32` and `int64` values are only compared, sorted and passed on, so
  they are plain `Int`.
* A `*stService` stored in the registry is modelled by its value: records are
  not changed after they are registered.
-/

namespace STService

/-! ## Go maps -/

/-- Go map: an association list of key/value bindings. -/
abbrev GoMap (κ α : Type) := List (κ × α)

namespace GoMap

variable {κ α : Type} [DecidableEq κ]

/-- The read `v, ok := m[k]`. -/
def lookup : GoMap κ α → κ → Option α
  | [], _ => none
  | (k', v) :: rest, k => if k' = k then some v else lookup rest k

/-- The assignment `m[k] = v`. -/
def store : GoMap κ α → κ → α → GoMap κ α
  | [], k, v => [(k, v)]
  | (k', v') :: rest, k, v =>
    if k' = k then (k, v) :: rest else (k', v') :: store rest k v

/-- The keys of the map. -/
def keys (m : GoMap κ α) : List κ := m.map Prod.fst

end GoMap

/-- The single-valued read `m[k]` of a `map[int][]string`: a missing key reads
as the nil slice. -/
def tierOf (m : GoMap Int (List String)) (priority : Int) : List String :=
  (GoMap.lookup m priority).getD []

/-- Library `sort.Ints`: ascending sort. -/
def sortInts (l : List Int) : List Int := l.insertionSort (· ≤ ·)

/-! ## Data model -/

/-- Arguments of a group message event. -/
structure GroupMsg where
  subType : Int
  msgID : Int
  fromGroup : Int
  fromQQ : Int
  fromAnonymous : String
  msg : String
  font : Int
  deriving DecidableEq, Repr

/-- Arguments of a private message event. -/
structure PrivateMsg where
  subType : Int
  msgID : Int
  fromQQ : Int
  msg : String
  font : Int
  deriving DecidableEq, Repr

/-- Interface `ISTService`; `σ` is the state of the handlers. -/
structure ISTService (σ : Type) where
  OnGroupMsg : GroupMsg → Bool → σ → (String × Bool) × σ
  OnPrivateMsg : PrivateMsg → Bool → σ → (String × Bool) × σ
  Init : σ → σ

/-- Struct `stService`. -/
structure stService (σ : Type) where
  name : String
  service : ISTService σ
  priority : Int
  postServiceNames : List String

/-- Struct `Controller`. -/
structure Controller (σ : Type) where
  nServices : GoMap String (stService σ)
  pServiceNames : GoMap Int (List String)

/-- One recorded handler call: whose handler, with which arguments and `post`
flag, and what it returned. -/
structure Invocation (α : Type) where
  name : String
  args : α
  post : Bool
  reply : String
  transparent : Bool
  deriving DecidableEq, Repr

/-- Outcome of `RegisterService`: the returned flag, the controller and world
afterwards, and the names of the records whose `Init` was called. -/
structure RegisterResult (σ : Type) where
  ok : Bool
  ctrl : Controller σ
  world : σ
  inits : List String

/-- Outcome of a dispatch: the returned code, the world afterwards, and the
handler calls made. -/
structure DispatchResult (σ α : Type) where
  code : Int
  world : σ
  trace : List (Invocation α)

/-! ## Operations -/

variable {σ : Type}

/-- Function `NewService`. -/
def NewService (name : String) (service : ISTService σ) (priority : Int) : stService σ :=
  { name := name, service := service, priority := priority, postServiceNames := [] }

/-- Method `PostService`.  It updates the receiver in place and returns the
receiver; the value returned here is the receiver after the update. -/
def stService.PostService (s : stService σ) (name : String) : stService σ :=
  { s with postServiceNames := s.postServiceNames ++ [name] }

/-- Function `NewController`. -/
def NewController : Controller σ :=
  { nServices := [], pServiceNames := [] }

/-- Method `RegisterService`. -/
def RegisterService (c : Controller σ) (service : stService σ) (w : σ) : RegisterResult σ :=
  match GoMap.lookup c.nServices service.name with
  | some _ => { ok := false, ctrl := c, world := w, inits := [] }
  | none =>
    { ok := true
      ctrl :=
        { nServices := GoMap.store c.nServices service.name service
          pServiceNames :=
            GoMap.store c.pServiceNames service.priority
              (tierOf c.pServiceNames service.priority ++ [service.name]) }
      world := service.service.Init w
      inits := [service.name] }

/-- Inner loop of `OnGroupMsg` over `service.postServiceNames`. -/
def postLoopGroup (c : Controller σ) (ev : GroupMsg) (serviceReply : String) :
    List String → σ → σ × List (Invocation GroupMsg)
  | [], w => (w, [])
  | postServiceName :: rest, w =>
    match GoMap.lookup c.nServices postServiceName with
    | none => postLoopGroup c ev serviceReply rest w
    | some postService =>
      let r := postService.service.OnGroupMsg { ev with msg := serviceReply } true w
      let k := postLoopGroup c ev serviceReply rest r.2
      (k.1, { name := postService.name, args := { ev with msg := serviceReply }, post := true,
              reply := r.1.1, transparent := r.1.2 } :: k.2)

/-- Middle loop of `OnGroupMsg` over `serviceNames`, carrying `transparent`. -/
def tierLoopGroup (c : Controller σ) (ev : GroupMsg) :
    List String → Bool → σ → Bool × σ × List (Invocation GroupMsg)
  | [], transparent, w => (transparent, w, [])
  | serviceName :: rest, transparent, w =>
    match GoMap.lookup c.nServices serviceName with
    | none => tierLoopGroup c ev rest transparent w
    | some service =>
      let r := service.service.OnGroupMsg ev false w
      let transparent1 := if !transparent && r.1.2 then true else transparent
      let p := if r.1.1 ≠ "" then postLoopGroup c ev r.1.1 service.postServiceNames r.2
               else (r.2, [])
      let k := tierLoopGroup c ev rest transparent1 p.1
      (k.1, k.2.1, { name := service.name, args := ev, post := false,
                     reply := r.1.1, transparent := r.1.2 } :: (p.2 ++ k.2.2))

/-- Outer loop of `OnGroupMsg` over the sorted priorities. -/
def priorityLoopGroup (c : Controller σ) (ev : GroupMsg) :
    List Int → σ → σ × List (Invocation GroupMsg)
  | [], w => (w, [])
  | priority :: rest, w =>
    if priority < 0 then priorityLoopGroup c ev rest w
    else
      let serviceNames := tierOf c.pServiceNames priority
      if serviceNames.length = 0 then priorityLoopGroup c ev rest w
      else
        let t := tierLoopGroup c ev serviceNames false w
        if !t.1 then (t.2.1, t.2.2)
        else
          let k := priorityLoopGroup c ev rest t.2.1
          (k.1, t.2.2 ++ k.2)

/-- Method `Controller.OnGroupMsg`; `rangeOrder` is the order in which the
`range` loop yields the keys of `pServiceNames`. -/
def OnGroupMsg (c : Controller σ) (rangeOrder : List Int) (ev : GroupMsg) (w : σ) :
    DispatchResult σ GroupMsg :=
  let priorities := sortInts rangeOrder
  let r := priorityLoopGroup c ev priorities w
  { code := 0, world := r.1, trace := r.2 }

/-- Inner loop of `OnPrivateMsg` over `service.postServiceNames`. -/
def postLoopPrivate (c : Controller σ) (ev : PrivateMsg) (serviceReply : String) :
    List String → σ → σ × List (Invocation PrivateMsg)
  | [], w => (w, [])
  | postServiceName :: rest, w =>
    match GoMap.lookup c.nServices postServiceName with
    | none => postLoopPrivate c ev serviceReply rest w
    | some postService =>
      let r := postService.service.OnPrivateMsg { ev with msg := serviceReply } true w
      let k := postLoopPrivate c ev serviceReply rest r.2
      (k.1, { name := postService.name, args := { ev with msg := serviceReply }, post := true,
              reply := r.1.1, transparent := r.1.2 } :: k.2)

/-- Middle loop of `OnPrivateMsg` over `serviceNames`, carrying `transparent`. -/
def tierLoopPrivate (c : Controller σ) (ev : PrivateMsg) :
    List String → Bool → σ → Bool × σ × List (Invocation PrivateMsg)
  | [], transparent, w => (transparent, w, [])
  | serviceName :: rest, transparent, w =>
    match GoMap.lookup c.nServices serviceName with
    | none => tierLoopPrivate c ev rest transparent w
    | some service =>
      let r := service.service.OnPrivateMsg ev false w
      let transparent1 := if !transparent && r.1.2 then true else transparent
      let p := if r.1.1 ≠ "" then postLoopPrivate c ev r.1.1 service.postServiceNames r.2
               else (r.2, [])
      let k := tierLoopPrivate c ev rest transparent1 p.1
      (k.1, k.2.1, { name := service.name, args := ev, post := false,
                     reply := r.1.1, transparent := r.1.2 } :: (p.2 ++ k.2.2))

/-- Outer loop of `OnPrivateMsg` over the sorted priorities. -/
def priorityLoopPrivate (c : Controller σ) (ev : PrivateMsg) :
    List Int → σ → σ × List (Invocation PrivateMsg)
  | [], w => (w, [])
  | priority :: rest, w =>
    if priority < 0 then priorityLoopPrivate c ev rest w
    else
      let serviceNames := tierOf c.pServiceNames priority
      if serviceNames.length = 0 then priorityLoopPrivate c ev rest w
      else
        let t := tierLoopPrivate c ev serviceNames false w
        if !t.1 then (t.2.1, t.2.2)
        else
          let k := priorityLoopPrivate c ev rest t.2.1
          (k.1, t.2.2 ++ k.2)

/-- Method `Controller.OnPrivateMsg`; `rangeOrder` is the order in which the
`range` loop yields the keys of `pServiceNames`. -/
def OnPrivateMsg (c : Controller σ) (rangeOrder : List Int) (ev : PrivateMsg) (w : σ) :
    DispatchResult σ PrivateMsg :=
  let priorities := sortInts rangeOrder
  let r := priorityLoopPrivate c ev priorities w
  { code := 0, world := r.1, trace := r.2 }

/-! ## Reachable controllers -/

/-- Controllers obtained from `NewController` by `RegisterService` calls
(accepted or rejected, in any world). -/
inductive Reachable : Controller σ → Prop
  | new : Reachable NewController
  | register (c : Controller σ) (service : stService σ) (w : σ) :
      Reachable c → Reachable (RegisterService c service w).ctrl

/-- Registering a list of records one after the other. -/
def registerAll (c : Controller σ) : List (stService σ) → σ → Controller σ × σ
  | [], w => (c, w)
  | s :: rest, w =>
    let r := RegisterService c s w
    registerAll r.ctrl rest r.world

/-! ## The common shape of the two dispatch methods

`OnGroupMsg` and `OnPrivateMsg` are two copies of one loop nest that differ in
the handler method called and in the argument list.  The loop nest below is
parametrised by these two; it is a proof device, shown equal to each of the two
translations above, so that every property is proved once. -/

/-- What distinguishes the two dispatch methods: the handler method called, and
how the message text is replaced in the argument list. -/
structure EventKind (σ α : Type) where
  call : ISTService σ → α → Bool → σ → (String × Bool) × σ
  withMsg : α → String → α

/-- Group messages: `OnGroupMsg`, with `msg` replaced. -/
def groupKind : EventKind σ GroupMsg :=
  { call := fun h => h.OnGroupMsg, withMsg := fun ev s => { ev with msg := s } }

/-- Private messages: `OnPrivateMsg`, with `msg` replaced. -/
def privateKind : EventKind σ PrivateMsg :=
  { call := fun h => h.OnPrivateMsg, withMsg := fun ev s => { ev with msg := s } }

variable {α : Type}

/-- Inner loop, for either event kind. -/
def postLoop (K : EventKind σ α) (c : Controller σ) (ev : α) (serviceReply : String) :
    List String → σ → σ × List (Invocation α)
  | [], w => (w, [])
  | postServiceName :: rest, w =>
    match GoMap.lookup c.nServices postServiceName with
    | none => postLoop K c ev serviceReply rest w
    | some postService =>
      let r := K.call postService.service (K.withMsg ev serviceReply) true w
      let k := postLoop K c ev serviceReply rest r.2
      (k.1, { name := postService.name, args := K.withMsg ev serviceReply, post := true,
              reply := r.1.1, transparent := r.1.2 } :: k.2)

/-- Middle loop, for either event kind. -/
def tierLoop (K : EventKind σ α) (c : Controller σ) (ev : α) :
    List String → Bool → σ → Bool × σ × List (Invocation α)
  | [], transparent, w => (transparent, w, [])
  | serviceName :: rest, transparent, w =>
    match GoMap.lookup c.nServices serviceName with
    | none => tierLoop K c ev rest transparent w
    | some service =>
      let r := K.call service.service ev false w
      let transparent1 := if !transparent && r.1.2 then true else transparent
      let p := if r.1.1 ≠ "" then postLoop K c ev r.1.1 service.postServiceNames r.2
               else (r.2, [])
      let k := tierLoop K c ev rest transparent1 p.1
      (k.1, k.2.1, { name := service.name, args := ev, post := false,
                     reply := r.1.1, transparent := r.1.2 } :: (p.2 ++ k.2.2))

/-- Outer loop, for either event kind. -/
def priorityLoop (K : EventKind σ α) (c : Controller σ) (ev : α) :
    List Int → σ → σ × List (Invocation α)
  | [], w => (w, [])
  | priority :: rest, w =>
    if priority < 0 then priorityLoop K c ev rest w
    else
      let serviceNames := tierOf c.pServiceNames priority
      if serviceNames.length = 0 then priorityLoop K c ev rest w
      else
        let t := tierLoop K c ev serviceNames false w
        if !t.1 then (t.2.1, t.2.2)
        else
          let k := priorityLoop K c ev rest t.2.1
          (k.1, t.2.2 ++ k.2)

/-- The part of one iteration of the middle loop that follows the primary call:
the inner loop when the reply is not empty, nothing otherwise. -/
def postPart (K : EventKind σ α) (c : Controller σ) (ev : α) (service : stService σ) (w : σ) :
    σ × List (Invocation α) :=
  if (K.call service.service ev false w).1.1 ≠ "" then
    postLoop K c ev (K.call service.service ev false w).1.1 service.postServiceNames
      (K.call service.service ev false w).2
  else ((K.call service.service ev false w).2, [])

/-! ## Vocabulary of the properties -/

/-- The priority under which a name is registered, if it is. -/
def priorityOf (c : Controller σ) (name : String) : Option Int :=
  (GoMap.lookup c.nServices name).map (fun s => s.priority)

/-- Whether a name is a key of the registry. -/
def registered (c : Controller σ) (name : String) : Bool :=
  (GoMap.lookup c.nServices name).isSome

/-- The invocation `e` is a primary one (`post = false`) of a handler registered
at priority `p`. -/
def IsPrimaryOfTier (c : Controller σ) (p : Int) (e : Invocation α) : Prop :=
  e.post = false ∧ priorityOf c e.name = some p

/-- The primary invocations of a trace, in order. -/
def primaries (t : List (Invocation α)) : List (Invocation α) :=
  t.filter (fun e => !e.post)

/-- What an observer of the calls sees of an invocation: handler name, arguments
and `post` flag (not what the handler returned). -/
def Invocation.observable (e : Invocation α) : String × α × Bool :=
  (e.name, e.args, e.post)

/-- Consistency of registry and priority index. -/
structure WellFormed (c : Controller σ) : Prop where
  name_key : ∀ k s, GoMap.lookup c.nServices k = some s → s.name = k
  tier_sound : ∀ p n, n ∈ tierOf c.pServiceNames p →
    ∃ s, GoMap.lookup c.nServices n = some s ∧ s.priority = p
  keys_nodup : (GoMap.keys c.pServiceNames).Nodup

/-- Shape of a dispatch trace: a sequence of blocks, each a primary invocation
carrying the event, followed by the post invocations it caused. -/
inductive BlockTrace (K : EventKind σ α) (c : Controller σ) (ev : α) :
    List (Invocation α) → Prop
  | nil : BlockTrace K c ev []
  | block (g : Invocation α) (posts rest : List (Invocation α)) (s : stService σ) :
      g.post = false → g.args = ev →
      GoMap.lookup c.nServices g.name = some s →
      (∀ x ∈ posts, x.post = true ∧ x.args = K.withMsg ev g.reply) →
      posts.map (fun x => x.name) =
        (if g.reply = "" then [] else s.postServiceNames.filter (registered c)) →
      BlockTrace K c ev rest →
      BlockTrace K c ev (g :: (posts ++ rest))

instance instDecidableIsPrimaryOfTier (c : Controller σ) (p : Int) (e : Invocation α) :
    Decidable (IsPrimaryOfTier c p e) := by
  unfold IsPrimaryOfTier; exact inferInstance

/-- The controller with the negative tiers removed from the priority index; the
registry is kept. -/
def dropNegativeTiers (c : Controller σ) : Controller σ :=
  { nServices := c.nServices
    pServiceNames := c.pServiceNames.filter (fun b => decide (0 ≤ b.1)) }

/-- What a registration record says besides its handler: name, priority and
post-handler names. -/
def stService.shape (s : stService σ) : String × Int × List String :=
  (s.name, s.priority, s.postServiceNames)

/-- Two invocations look the same to an observer of the calls, and returned the
same values if they are primary ones. -/
def Invocation.agrees (e₁ e₂ : Invocation α) : Prop :=
  e₁.observable = e₂.observable ∧
    (e₁.post = false → e₁.reply = e₂.reply ∧ e₁.transparent = e₂.transparent)

/-- Position, in the sequence of records offered to `RegisterService`, of the
first record with the given name: that is the one that was accepted. -/
def regIndex (rs : List (stService σ)) (name : String) : Nat :=
  (rs.map (fun s => s.name)).indexOf name

/-- The order of primary invocations: `a` comes before `b` when the handler of
`a` has the lower priority or, at equal priority, was registered earlier. -/
def DispatchedBefore (c : Controller σ) (rs : List (stService σ)) (a b : Invocation α) : Prop :=
  match priorityOf c a.name, priorityOf c b.name with
  | some pa, some pb => pa < pb ∨ (pa = pb ∧ regIndex rs a.name < regIndex rs b.name)
  | _, _ => False

/-- What the registration history `rs` says about the controller it produced. -/
structure History (rs : List (stService σ)) (c : Controller σ) : Prop where
  wf : WellFormed c
  names : ∀ n, n ∈ GoMap.keys c.nServices ↔ n ∈ rs.map (fun s => s.name)
  tiers : ∀ p, (tierOf c.pServiceNames p).Pairwise (fun a b => regIndex rs a < regIndex rs b)

/-! ## Sample handlers and controllers -/

/-- A handler that counts its calls in the world and always returns the same
reply and vote. -/
def constHandler (reply : String) (vote : Bool) : ISTService Nat :=
  { OnGroupMsg := fun _ _ w => ((reply, vote), w + 1)
    OnPrivateMsg := fun _ _ w => ((reply, vote), w + 1)
    Init := fun w => w + 100 }

/-- A sample group event. -/
def sampleGroup : GroupMsg :=
  { subType := 1, msgID := 7, fromGroup := 10, fromQQ := 20, fromAnonymous := "",
    msg := "hello", font := 0 }

/-- A sample private event. -/
def samplePrivate : PrivateMsg :=
  { subType := 11, msgID := 8, fromQQ := 20, msg := "hello", font := 0 }

/-- A controller holding one record named `A` at priority 0. -/
def ctrlA : Controller Nat :=
  (RegisterService NewController (NewService "A" (constHandler "X" true) 0) 0).ctrl

/-- Three tiers 0, 1, 2; the only handler of tier 0 votes against propagation. -/
def ctrlGate : Controller Nat :=
  (registerAll NewController
    [NewService "gate" (constHandler "" false) 0,
     NewService "one" (constHandler "r" true) 1,
     NewService "two" (constHandler "r" true) 2] 0).1

/-- Two handlers at priority 0, one voting for and one against propagation, and
one handler at priority 1. -/
def ctrlMixed : Controller Nat :=
  (registerAll NewController
    [NewService "yes" (constHandler "" true) 0,
     NewService "no" (constHandler "" false) 0,
     NewService "next" (constHandler "" false) 1] 0).1

/-- A handler `log` at priority -1, named as post-handler by `a` at priority 0;
`b` at priority 1. -/
def ctrlNeg : Controller Nat :=
  (registerAll NewController
    [NewService "log" (constHandler "" true) (-1),
     (NewService "a" (constHandler "X" true) 0).PostService "log",
     NewService "b" (constHandler "" false) 1] 0).1

/-- Record `p` at priority 0 replies `X` and names the post-handlers `log`,
`ghost` (never registered) and `log` again. -/
def recP : stService Nat :=
  (((NewService "p" (constHandler "X" true) 0).PostService "log").PostService
    "ghost").PostService "log"

/-- Record `q` at priority 0 replies nothing and names the post-handler `log`. -/
def recQ : stService Nat :=
  (NewService "q" (constHandler "" true) 0).PostService "log"

/-- Record `log` at priority 5 replies `Z` and names the post-handler `p`. -/
def recLog : stService Nat :=
  (NewService "log" (constHandler "Z" false) 5).PostService "p"

/-- The records `p`, `q`, `log` registered in this order. -/
def ctrlPost : Controller Nat :=
  (registerAll NewController [recP, recQ, recLog] 0).1

/-- A post invocation of `log` on the sample group event with text `X`. -/
def groupPostOfLog : Invocation GroupMsg :=
  { name := "log", args := { sampleGroup with msg := "X" }, post := true, reply := "Z",
    transparent := false }

/-- A post invocation of `log` on the sample private event with text `X`. -/
def privatePostOfLog : Invocation PrivateMsg :=
  { name := "log", args := { samplePrivate with msg := "X" }, post := true, reply := "Z",
    transparent := false }

/-- A handler that behaves like `constHandler "Z" false` when invoked as primary
handler and differently when invoked as post-handler. -/
def postVarying : ISTService Nat :=
  { OnGroupMsg := fun _ post w => if post then (("other", true), w + 7) else (("Z", false), w + 1)
    OnPrivateMsg := fun _ post w =>
      if post then (("other", true), w + 7) else (("Z", false), w + 1)
    Init := fun w => w }

/-- The controller `ctrlPost` with the handler of `log` replaced by
`postVarying`. -/
def ctrlPostVar : Controller Nat :=
  (registerAll NewController
    [recP, recQ, (NewService "log" postVarying 5).PostService "p"] 0).1

/-- Records offered in the order `hi` (priority 1), `A` (priority 0), `B`
(priority 0), and `A` once more (rejected). -/
def recordsAB : List (stService Nat) :=
  [NewService "hi" (constHandler "" false) 1,
   NewService "A" (constHandler "" true) 0,
   NewService "B" (constHandler "" false) 0,
   NewService "A" (constHandler "" false) 3]

/-- The controller produced by `recordsAB`. -/
def ctrlAB : Controller Nat :=
  (registerAll NewController recordsAB 0).1

/-- The priority index lists every registered name, lists no name twice, and
has no empty tier. -/
structure IndexExact (c : Controller σ) : Prop where
  complete : ∀ n s, GoMap.lookup c.nServices n = some s →
    n ∈ tierOf c.pServiceNames s.priority
  tier_nodup : ∀ p, (tierOf c.pServiceNames p).Nodup
  tier_nonempty : ∀ p ∈ GoMap.keys c.pServiceNames, tierOf c.pServiceNames p ≠ []

/-- Tier 0 holds `first`, which replies and votes for propagation, and `second`,
which votes against; tier 1 holds `late`. -/
def ctrlTwo : Controller Nat :=
  (registerAll NewController
    [NewService "first" (constHandler "out" true) 0,
     NewService "second" (constHandler "" false) 0,
     NewService "late" (constHandler "" false) 1] 0).1

/-- The number of post invocations a primary invocation causes: none when its
reply is empty, otherwise one for each post-handler name of its record that is
registered. -/
def postCount (c : Controller σ) (g : Invocation α) : Nat :=
  if g.reply = "" then 0
  else
    match GoMap.lookup c.nServices g.name with
    | some r => (r.postServiceNames.filter (registered c)).length
    | none => 0

/-- Record `echo` names itself as post-handler; `a` and `b` name each other; all
three reply with a non-empty text. -/
def ctrlCycle : Controller Nat :=
  (registerAll NewController
    [(NewService "echo" (constHandler "X" true) 0).PostService "echo",
     (NewService "a" (constHandler "Y" true) 1).PostService "b",
     (NewService "b" (constHandler "Z" true) 1).PostService "a"] 0).1

/-- A call on a controller: a registration or a dispatch. -/
inductive Op (σ : Type) where
  | register (service : stService σ)
  | groupMsg (rangeOrder : List Int) (ev : GroupMsg)
  | privateMsg (rangeOrder : List Int) (ev : PrivateMsg)

/-- The controller and the handler state after one call.  `OnGroupMsg` and
`OnPrivateMsg` contain no assignment to a field of the controller, to an entry of
its maps or to a field of a record, so after them the controller is the one
before. -/
def Op.apply (op : Op σ) (c : Controller σ) (w : σ) : Controller σ × σ :=
  match op with
  | .register service => ((RegisterService c service w).ctrl, (RegisterService c service w).world)
  | .groupMsg rangeOrder ev => (c, (OnGroupMsg c rangeOrder ev w).world)
  | .privateMsg rangeOrder ev => (c, (OnPrivateMsg c rangeOrder ev w).world)

/-- The controller and the handler state after a sequence of calls. -/
def runOps (c : Controller σ) (w : σ) : List (Op σ) → Controller σ × σ
  | [] => (c, w)
  | op :: rest => runOps (op.apply c w).1 (op.apply c w).2 rest

/-- Registrations of `A` (priority 0) and `B` (priority 1) interleaved with
dispatches, and a second, rejected registration under the name `A`. -/
def sampleOps : List (Op Nat) :=
  [Op.register (NewService "A" (constHandler "X" true) 0),
   Op.groupMsg [0] sampleGroup,
   Op.register ((NewService "B" (constHandler "" false) 1).PostService "A"),
   Op.privateMsg [1, 0] samplePrivate,
   Op.register (NewService "A" (constHandler "" false) 7)]

/-- The private event made of the fields a group event shares with it. -/
def GroupMsg.toPrivate (ev : GroupMsg) : PrivateMsg :=
  { subType := ev.subType, msgID := ev.msgID, fromQQ := ev.fromQQ, msg := ev.msg,
    font := ev.font }

/-- An invocation with its arguments translated by `f`. -/
def Invocation.mapArgs {β : Type} (f : α → β) (e : Invocation α) : Invocation β :=
  { name := e.name, args := f e.args, post := e.post, reply := e.reply,
    transparent := e.transparent }

/-- Handler name, message text and `post` flag of a group invocation. -/
def groupView (e : Invocation GroupMsg) : String × String × Bool :=
  (e.name, e.args.msg, e.post)

/-- Handler name, message text and `post` flag of a private invocation. -/
def privateView (e : Invocation PrivateMsg) : String × String × Bool :=
  (e.name, e.args.msg, e.post)

/-- Record `A` at priority 0 replies `X`, votes against propagation and names
the post-handler `B`. -/
def recA : stService Nat :=
  (NewService "A" (constHandler "X" false) 0).PostService "B"

/-- `A` as in `recA`, and `B` in the higher tier 1, which the dispatch never
reaches. -/
def ctrlHigh : Controller Nat :=
  (registerAll NewController [recA, NewService "B" (constHandler "" true) 1] 0).1

/-- `A` as in `recA`, and `B` in the negative tier -1. -/
def ctrlLow : Controller Nat :=
  (registerAll NewController [recA, NewService "B" (constHandler "" true) (-1)] 0).1

/-! ## Handlers that call back into the controller

A handler that holds the controller can call `RegisterService` from inside its
`OnGroupMsg` or `OnPrivateMsg`.  The dispatch below is the loop nest of the two
dispatch methods with the controller passed along: every read of `c.nServices`
and `c.pServiceNames` reads the controller as the handler calls made so far have
left it.  The priorities are collected before the first handler call; the slice
`serviceNames` is read when its tier is entered, and `service.postServiceNames`
belongs to a record, which no registration changes. -/

namespace GoMap

variable {κ α : Type} [DecidableEq κ]

theorem lookup_eq_none_iff (m : GoMap κ α) (k : κ) : lookup m k = none ↔ k ∉ keys m := by
  induction m with
  | nil => simp [lookup, keys]
  | cons b rest ih =>
    obtain ⟨k', v⟩ := b
    by_cases hk : k' = k
    · simp [lookup, keys, hk]
    · have hk' : ¬ k = k' := fun h => hk h.symm
      simpa [lookup, keys, hk, hk'] using ih

theorem lookup_isSome_iff (m : GoMap κ α) (k : κ) : (lookup m k).isSome ↔ k ∈ keys m := by
  rw [← not_iff_not, ← lookup_eq_none_iff]
  cases lookup m k <;> simp

theorem mem_keys_of_lookup {m : GoMap κ α} {k : κ} {v : α} (h : lookup m k = some v) :
    k ∈ keys m := by
  rw [← lookup_isSome_iff, h]; rfl

theorem lookup_store_self (m : GoMap κ α) (k : κ) (v : α) : lookup (store m k v) k = some v := by
  induction m with
  | nil => simp [store, lookup]
  | cons b rest ih =>
    obtain ⟨k', v'⟩ := b
    by_cases hk : k' = k
    · simp [store, lookup, hk]
    · simpa [store, lookup, hk] using ih

theorem lookup_store_ne (m : GoMap κ α) {k k' : κ} (v : α) (h : k' ≠ k) :
    lookup (store m k v) k' = lookup m k' := by
  induction m with
  | nil =>
    have h' : ¬ k = k' := fun e => h e.symm
    simp [store, lookup, h']
  | cons b rest ih =>
    obtain ⟨k0, v0⟩ := b
    by_cases hk : k0 = k
    · have h' : ¬ k = k' := fun e => h e.symm
      have h'' : ¬ k0 = k' := fun e => h' (hk ▸ e)
      simp [store, lookup, hk, h']
    · by_cases hk' : k0 = k'
      · subst hk'
        simp [store, lookup, hk]
      · simpa [store, lookup, hk, hk'] using ih

theorem lookup_store (m : GoMap κ α) (k k' : κ) (v : α) :
    lookup (store m k v) k' = if k' = k then some v else lookup m k' := by
  by_cases h : k' = k
  · subst h; simp [lookup_store_self]
  · simp [h, lookup_store_ne m v h]

theorem keys_store_of_not_mem (m : GoMap κ α) {k : κ} (v : α) (h : k ∉ keys m) :
    keys (store m k v) = keys m ++ [k] := by
  induction m with
  | nil => simp [store, keys]
  | cons b rest ih =>
    obtain ⟨k0, v0⟩ := b
    have h0 : ¬ k0 = k := fun e => h (by simp [keys, e])
    have hr : k ∉ keys rest := fun e => h (by simp [keys] at e ⊢; exact Or.inr e)
    have := ih hr
    simp [store, keys, h0] at this ⊢
    exact this

theorem keys_store_of_mem (m : GoMap κ α) {k : κ} (v : α) (h : k ∈ keys m) :
    keys (store m k v) = keys m := by
  induction m with
  | nil => simp [keys] at h
  | cons b rest ih =>
    obtain ⟨k0, v0⟩ := b
    by_cases h0 : k0 = k
    · simp [store, keys, h0]
    · have hr : k ∈ keys rest := by
        have : k = k0 ∨ k ∈ keys rest := by simpa [keys] using h
        rcases this with e | e
        · exact absurd e.symm h0
        · exact e
      have := ih hr
      simp [store, keys, h0] at this ⊢
      exact this

theorem mem_keys_store (m : GoMap κ α) (k k' : κ) (v : α) :
    k' ∈ keys (store m k v) ↔ k' ∈ keys m ∨ k' = k := by
  by_cases h : k ∈ keys m
  · rw [keys_store_of_mem m v h]
    constructor
    · exact Or.inl
    · rintro (h' | rfl)
      · exact h'
      · exact h
  · rw [keys_store_of_not_mem m v h]; simp

theorem nodup_keys_store (m : GoMap κ α) (k : κ) (v : α) (h : (keys m).Nodup) :
    (keys (store m k v)).Nodup := by
  by_cases hk : k ∈ keys m
  · rw [keys_store_of_mem m v hk]; exact h
  · rw [keys_store_of_not_mem m v hk]
    exact List.Nodup.append h (List.nodup_singleton k) (by simpa using hk)

end GoMap

theorem tierOf_store_self (m : GoMap Int (List String)) (p : Int) (l : List String) :
    tierOf (GoMap.store m p l) p = l := by
  simp [tierOf, GoMap.lookup_store_self]

theorem tierOf_store_ne (m : GoMap Int (List String)) {p q : Int} (l : List String)
    (h : q ≠ p) : tierOf (GoMap.store m p l) q = tierOf m q := by
  simp [tierOf, GoMap.lookup_store_ne m l h]

/-! ## The two dispatch methods are instances of the common loop nest -/

theorem postLoopGroup_eq (c : Controller σ) (ev : GroupMsg) (reply : String)
    (names : List String) (w : σ) :
    postLoopGroup c ev reply names w = postLoop groupKind c ev reply names w := by
  induction names generalizing w with
  | nil => rfl
  | cons n rest ih =>
    simp only [postLoopGroup, postLoop]
    cases GoMap.lookup c.nServices n <;> simp [ih, groupKind]

theorem tierLoopGroup_eq (c : Controller σ) (ev : GroupMsg) (names : List String)
    (tr : Bool) (w : σ) :
    tierLoopGroup c ev names tr w = tierLoop groupKind c ev names tr w := by
  induction names generalizing tr w with
  | nil => rfl
  | cons n rest ih =>
    simp only [tierLoopGroup, tierLoop]
    cases GoMap.lookup c.nServices n <;> simp [ih, postLoopGroup_eq, groupKind]

theorem priorityLoopGroup_eq (c : Controller σ) (ev : GroupMsg) (ps : List Int) (w : σ) :
    priorityLoopGroup c ev ps w = priorityLoop groupKind c ev ps w := by
  induction ps generalizing w with
  | nil => rfl
  | cons p rest ih => simp only [priorityLoopGroup, priorityLoop, ih, tierLoopGroup_eq]

theorem postLoopPrivate_eq (c : Controller σ) (ev : PrivateMsg) (reply : String)
    (names : List String) (w : σ) :
    postLoopPrivate c ev reply names w = postLoop privateKind c ev reply names w := by
  induction names generalizing w with
  | nil => rfl
  | cons n rest ih =>
    simp only [postLoopPrivate, postLoop]
    cases GoMap.lookup c.nServices n <;> simp [ih, privateKind]

theorem tierLoopPrivate_eq (c : Controller σ) (ev : PrivateMsg) (names : List String)
    (tr : Bool) (w : σ) :
    tierLoopPrivate c ev names tr w = tierLoop privateKind c ev names tr w := by
  induction names generalizing tr w with
  | nil => rfl
  | cons n rest ih =>
    simp only [tierLoopPrivate, tierLoop]
    cases GoMap.lookup c.nServices n <;> simp [ih, postLoopPrivate_eq, privateKind]

theorem priorityLoopPrivate_eq (c : Controller σ) (ev : PrivateMsg) (ps : List Int) (w : σ) :
    priorityLoopPrivate c ev ps w = priorityLoop privateKind c ev ps w := by
  induction ps generalizing w with
  | nil => rfl
  | cons p rest ih => simp only [priorityLoopPrivate, priorityLoop, ih, tierLoopPrivate_eq]

theorem OnGroupMsg_trace (c : Controller σ) (order : List Int) (ev : GroupMsg) (w : σ) :
    (OnGroupMsg c order ev w).trace = (priorityLoop groupKind c ev (sortInts order) w).2 := by
  simp [OnGroupMsg, priorityLoopGroup_eq]

theorem OnPrivateMsg_trace (c : Controller σ) (order : List Int) (ev : PrivateMsg) (w : σ) :
    (OnPrivateMsg c order ev w).trace =
      (priorityLoop privateKind c ev (sortInts order) w).2 := by
  simp [OnPrivateMsg, priorityLoopPrivate_eq]

/-! ## Reachable controllers are well formed -/

theorem wellFormed_new : WellFormed (NewController : Controller σ) where
  name_key := by intro k s h; simp [NewController, GoMap.lookup] at h
  tier_sound := by intro p n h; simp [NewController, tierOf, GoMap.lookup] at h
  keys_nodup := by simp [NewController, GoMap.keys]

theorem wellFormed_register (c : Controller σ) (r : stService σ) (w : σ)
    (hc : WellFormed c) : WellFormed (RegisterService c r w).ctrl := by
  unfold RegisterService
  cases hl : GoMap.lookup c.nServices r.name with
  | some s => exact hc
  | none =>
    have hold : ∀ n s, GoMap.lookup c.nServices n = some s → n ≠ r.name := by
      intro n s hn e
      rw [e, hl] at hn
      cases hn
    refine ⟨?_, ?_, ?_⟩
    · intro k s h
      simp only [GoMap.lookup_store] at h
      by_cases hk : k = r.name
      · simp only [hk, if_true, Option.some.injEq] at h
        rw [← h, hk]
      · simp only [hk, if_false] at h
        exact hc.name_key k s h
    · intro p n h
      simp only [GoMap.lookup_store]
      by_cases hp : p = r.priority
      · subst hp
        simp only [tierOf_store_self, List.mem_append, List.mem_singleton] at h
        rcases h with h | h
        · obtain ⟨s, hs, hsp⟩ := hc.tier_sound _ n h
          exact ⟨s, by simp [hold n s hs, hs], hsp⟩
        · exact ⟨r, by simp [h], rfl⟩
      · simp only [tierOf_store_ne _ _ hp] at h
        obtain ⟨s, hs, hsp⟩ := hc.tier_sound _ n h
        exact ⟨s, by simp [hold n s hs, hs], hsp⟩
    · exact GoMap.nodup_keys_store _ _ _ hc.keys_nodup

theorem wellFormed_of_reachable {c : Controller σ} (h : Reachable c) : WellFormed c := by
  induction h with
  | new => exact wellFormed_new
  | register c r w _ ih => exact wellFormed_register c r w ih

theorem priorityOf_of_mem_tier {c : Controller σ} (hc : WellFormed c) {p : Int} {n : String}
    (h : n ∈ tierOf c.pServiceNames p) : priorityOf c n = some p := by
  obtain ⟨s, hs, hsp⟩ := hc.tier_sound p n h
  simp [priorityOf, hs, hsp]

theorem registered_of_mem_tier {c : Controller σ} (hc : WellFormed c) {p : Int} {n : String}
    (h : n ∈ tierOf c.pServiceNames p) : registered c n = true := by
  obtain ⟨s, hs, _⟩ := hc.tier_sound p n h
  simp [registered, hs]

/-! ## The inner loop -/

theorem postLoop_post (K : EventKind σ α) (c : Controller σ) (ev : α) (reply : String)
    (names : List String) (w : σ) :
    ∀ x ∈ (postLoop K c ev reply names w).2, x.post = true ∧ x.args = K.withMsg ev reply := by
  induction names generalizing w with
  | nil => simp [postLoop]
  | cons n rest ih =>
    simp only [postLoop]
    cases GoMap.lookup c.nServices n with
    | none => exact ih w
    | some s =>
      intro x hx
      simp only [List.mem_cons] at hx
      rcases hx with rfl | hx
      · exact ⟨rfl, rfl⟩
      · exact ih _ x hx

theorem postLoop_names (K : EventKind σ α) {c : Controller σ}
    (hk : ∀ k s, GoMap.lookup c.nServices k = some s → s.name = k) (ev : α) (reply : String)
    (names : List String) (w : σ) :
    (postLoop K c ev reply names w).2.map (fun x => x.name) = names.filter (registered c) := by
  induction names generalizing w with
  | nil => simp [postLoop]
  | cons n rest ih =>
    simp only [postLoop]
    cases hl : GoMap.lookup c.nServices n with
    | none => simp [List.filter_cons, registered, hl, ih]
    | some s => simp [List.filter_cons, registered, hl, ih, hk n s hl]

/-! ## The middle loop -/

theorem tierLoop_cons_none (K : EventKind σ α) (c : Controller σ) (ev : α) (n : String)
    (rest : List String) (tr : Bool) (w : σ) (h : GoMap.lookup c.nServices n = none) :
    tierLoop K c ev (n :: rest) tr w = tierLoop K c ev rest tr w := by
  simp [tierLoop, h]

theorem tierLoop_cons_some (K : EventKind σ α) (c : Controller σ) (ev : α) (n : String)
    (rest : List String) (tr : Bool) (w : σ) (s : stService σ)
    (h : GoMap.lookup c.nServices n = some s) :
    tierLoop K c ev (n :: rest) tr w =
      ((tierLoop K c ev rest (tr || (K.call s.service ev false w).1.2)
          (postPart K c ev s w).1).1,
       (tierLoop K c ev rest (tr || (K.call s.service ev false w).1.2)
          (postPart K c ev s w).1).2.1,
       { name := s.name, args := ev, post := false,
         reply := (K.call s.service ev false w).1.1,
         transparent := (K.call s.service ev false w).1.2 } ::
        ((postPart K c ev s w).2 ++
          (tierLoop K c ev rest (tr || (K.call s.service ev false w).1.2)
            (postPart K c ev s w).1).2.2)) := by
  have hb : (if (!tr && (K.call s.service ev false w).1.2) = true then true else tr) =
      (tr || (K.call s.service ev false w).1.2) := by
    cases tr <;> cases (K.call s.service ev false w).1.2 <;> rfl
  simp only [tierLoop, h, postPart, hb]

theorem postPart_post (K : EventKind σ α) (c : Controller σ) (ev : α) (s : stService σ)
    (w : σ) :
    ∀ x ∈ (postPart K c ev s w).2,
      x.post = true ∧ x.args = K.withMsg ev (K.call s.service ev false w).1.1 := by
  intro x hx
  unfold postPart at hx
  by_cases hr : (K.call s.service ev false w).1.1 = ""
  · simp [hr] at hx
  · simp only [ne_eq, hr, not_false_eq_true, if_true] at hx
    exact postLoop_post K c ev _ _ _ x hx

theorem postPart_names (K : EventKind σ α) {c : Controller σ}
    (hk : ∀ k s, GoMap.lookup c.nServices k = some s → s.name = k) (ev : α)
    (s : stService σ) (w : σ) :
    (postPart K c ev s w).2.map (fun x => x.name) =
      (if (K.call s.service ev false w).1.1 = "" then []
       else s.postServiceNames.filter (registered c)) := by
  unfold postPart
  by_cases hr : (K.call s.service ev false w).1.1 = ""
  · simp [hr]
  · simp only [ne_eq, hr, not_false_eq_true, if_true, if_false]
    exact postLoop_names K hk ev _ _ _

theorem primaries_append (a b : List (Invocation α)) :
    primaries (a ++ b) = primaries a ++ primaries b := by
  simp [primaries]

theorem primaries_cons_primary (g : Invocation α) (l : List (Invocation α))
    (hg : g.post = false) : primaries (g :: l) = g :: primaries l := by
  simp [primaries, hg]

theorem primaries_cons_mk (n : String) (a : α) (r : String) (v : Bool)
    (l : List (Invocation α)) :
    primaries ({ name := n, args := a, post := false, reply := r, transparent := v } :: l) =
      { name := n, args := a, post := false, reply := r, transparent := v } :: primaries l := by
  simp [primaries]

theorem primaries_of_post {t : List (Invocation α)} (h : ∀ x ∈ t, x.post = true) :
    primaries t = [] := by
  simp only [primaries, List.filter_eq_nil_iff]
  intro x hx
  simp [h x hx]

theorem mem_primaries {t : List (Invocation α)} {e : Invocation α} :
    e ∈ primaries t ↔ e ∈ t ∧ e.post = false := by
  simp [primaries]

theorem primaries_postPart (K : EventKind σ α) (c : Controller σ) (ev : α)
    (s : stService σ) (w : σ) : primaries (postPart K c ev s w).2 = [] :=
  primaries_of_post (fun x hx => (postPart_post K c ev s w x hx).1)

theorem tierLoop_blocks (K : EventKind σ α) {c : Controller σ}
    (hk : ∀ k s, GoMap.lookup c.nServices k = some s → s.name = k) (ev : α)
    (names : List String) (tr : Bool) (w : σ) :
    BlockTrace K c ev (tierLoop K c ev names tr w).2.2 := by
  induction names generalizing tr w with
  | nil => exact BlockTrace.nil
  | cons n rest ih =>
    cases hl : GoMap.lookup c.nServices n with
    | none => rw [tierLoop_cons_none K c ev n rest tr w hl]; exact ih tr w
    | some s =>
      rw [tierLoop_cons_some K c ev n rest tr w s hl]
      refine BlockTrace.block _ _ _ s rfl rfl ?_ (postPart_post K c ev s w)
        (postPart_names K hk ev s w) (ih _ _)
      simp only [hk n s hl]; exact hl

theorem tierLoop_primaries_names (K : EventKind σ α) {c : Controller σ}
    (hk : ∀ k s, GoMap.lookup c.nServices k = some s → s.name = k) (ev : α)
    (names : List String) (tr : Bool) (w : σ) :
    (primaries (tierLoop K c ev names tr w).2.2).map (fun x => x.name) =
      names.filter (registered c) := by
  induction names generalizing tr w with
  | nil => simp [tierLoop, primaries]
  | cons n rest ih =>
    cases hl : GoMap.lookup c.nServices n with
    | none =>
      rw [tierLoop_cons_none K c ev n rest tr w hl]
      simp [List.filter_cons, registered, hl, ih]
    | some s =>
      rw [tierLoop_cons_some K c ev n rest tr w s hl]
      simp only [primaries_cons_mk, primaries_append, primaries_postPart,
        List.nil_append, List.map_cons, ih, hk n s hl]
      simp [List.filter_cons, registered, hl]

theorem tierLoop_vote (K : EventKind σ α) (c : Controller σ) (ev : α)
    (names : List String) (tr : Bool) (w : σ) :
    (tierLoop K c ev names tr w).1 =
      (tr || (primaries (tierLoop K c ev names tr w).2.2).any (fun e => e.transparent)) := by
  induction names generalizing tr w with
  | nil => simp [tierLoop, primaries]
  | cons n rest ih =>
    cases hl : GoMap.lookup c.nServices n with
    | none => rw [tierLoop_cons_none K c ev n rest tr w hl]; exact ih tr w
    | some s =>
      rw [tierLoop_cons_some K c ev n rest tr w s hl]
      simp only [primaries_cons_mk, primaries_append, primaries_postPart,
        List.nil_append, List.any_cons]
      rw [ih, Bool.or_assoc]

/-! ## The outer loop -/

theorem priorityLoop_neg (K : EventKind σ α) (c : Controller σ) (ev : α) (p : Int)
    (rest : List Int) (w : σ) (h : p < 0) :
    priorityLoop K c ev (p :: rest) w = priorityLoop K c ev rest w := by
  simp [priorityLoop, h]

theorem priorityLoop_empty (K : EventKind σ α) (c : Controller σ) (ev : α) (p : Int)
    (rest : List Int) (w : σ) (h : tierOf c.pServiceNames p = []) :
    priorityLoop K c ev (p :: rest) w = priorityLoop K c ev rest w := by
  simp [priorityLoop, h]

theorem priorityLoop_closed (K : EventKind σ α) (c : Controller σ) (ev : α) (p : Int)
    (rest : List Int) (w : σ) (hp : 0 ≤ p) (hne : tierOf c.pServiceNames p ≠ [])
    (ht : (tierLoop K c ev (tierOf c.pServiceNames p) false w).1 = false) :
    priorityLoop K c ev (p :: rest) w =
      ((tierLoop K c ev (tierOf c.pServiceNames p) false w).2.1,
       (tierLoop K c ev (tierOf c.pServiceNames p) false w).2.2) := by
  have h1 : ¬ p < 0 := not_lt.mpr hp
  simp [priorityLoop, h1, hne, ht]

theorem priorityLoop_open (K : EventKind σ α) (c : Controller σ) (ev : α) (p : Int)
    (rest : List Int) (w : σ) (hp : 0 ≤ p) (hne : tierOf c.pServiceNames p ≠ [])
    (ht : (tierLoop K c ev (tierOf c.pServiceNames p) false w).1 = true) :
    priorityLoop K c ev (p :: rest) w =
      ((priorityLoop K c ev rest
          (tierLoop K c ev (tierOf c.pServiceNames p) false w).2.1).1,
       (tierLoop K c ev (tierOf c.pServiceNames p) false w).2.2 ++
        (priorityLoop K c ev rest
          (tierLoop K c ev (tierOf c.pServiceNames p) false w).2.1).2) := by
  have h1 : ¬ p < 0 := not_lt.mpr hp
  simp [priorityLoop, h1, hne, ht]

/-- Case analysis of one iteration of the outer loop. -/
theorem priorityLoop_cases (K : EventKind σ α) (c : Controller σ) (ev : α) (p : Int)
    (rest : List Int) (w : σ) :
    ((p < 0 ∨ tierOf c.pServiceNames p = []) ∧
      priorityLoop K c ev (p :: rest) w = priorityLoop K c ev rest w) ∨
    (0 ≤ p ∧ tierOf c.pServiceNames p ≠ [] ∧
      (tierLoop K c ev (tierOf c.pServiceNames p) false w).1 = false ∧
      (priorityLoop K c ev (p :: rest) w).2 =
        (tierLoop K c ev (tierOf c.pServiceNames p) false w).2.2) ∨
    (0 ≤ p ∧ tierOf c.pServiceNames p ≠ [] ∧
      (tierLoop K c ev (tierOf c.pServiceNames p) false w).1 = true ∧
      (priorityLoop K c ev (p :: rest) w).2 =
        (tierLoop K c ev (tierOf c.pServiceNames p) false w).2.2 ++
          (priorityLoop K c ev rest
            (tierLoop K c ev (tierOf c.pServiceNames p) false w).2.1).2) := by
  by_cases h1 : p < 0
  · exact Or.inl ⟨Or.inl h1, priorityLoop_neg K c ev p rest w h1⟩
  · by_cases h2 : tierOf c.pServiceNames p = []
    · exact Or.inl ⟨Or.inr h2, priorityLoop_empty K c ev p rest w h2⟩
    · have hp : 0 ≤ p := not_lt.mp h1
      cases ht : (tierLoop K c ev (tierOf c.pServiceNames p) false w).1 with
      | false =>
        exact Or.inr (Or.inl ⟨hp, h2, rfl, by rw [priorityLoop_closed K c ev p rest w hp h2 ht]⟩)
      | true =>
        exact Or.inr (Or.inr ⟨hp, h2, rfl, by rw [priorityLoop_open K c ev p rest w hp h2 ht]⟩)

theorem BlockTrace.append {K : EventKind σ α} {c : Controller σ} {ev : α}
    {a b : List (Invocation α)} (ha : BlockTrace K c ev a) (hb : BlockTrace K c ev b) :
    BlockTrace K c ev (a ++ b) := by
  induction ha with
  | nil => exact hb
  | block g posts rest s h1 h2 h3 h4 h5 _ ih =>
    have : g :: (posts ++ rest) ++ b = g :: (posts ++ (rest ++ b)) := by simp
    rw [this]
    exact BlockTrace.block g posts (rest ++ b) s h1 h2 h3 h4 h5 ih

theorem priorityLoop_blocks (K : EventKind σ α) {c : Controller σ}
    (hk : ∀ k s, GoMap.lookup c.nServices k = some s → s.name = k) (ev : α)
    (ps : List Int) (w : σ) : BlockTrace K c ev (priorityLoop K c ev ps w).2 := by
  induction ps generalizing w with
  | nil => exact BlockTrace.nil
  | cons p rest ih =>
    rcases priorityLoop_cases K c ev p rest w with ⟨_, h⟩ | ⟨_, _, _, h⟩ | ⟨_, _, _, h⟩
    · rw [h]; exact ih w
    · rw [h]; exact tierLoop_blocks K hk ev _ _ _
    · rw [h]; exact (tierLoop_blocks K hk ev _ _ _).append (ih _)

/-! ## One tier -/

theorem tier_primary_mem (K : EventKind σ α) {c : Controller σ} (hc : WellFormed c) (ev : α)
    (q : Int) (tr : Bool) (w : σ) (e : Invocation α)
    (he : e ∈ (tierLoop K c ev (tierOf c.pServiceNames q) tr w).2.2) (hp : e.post = false) :
    e.name ∈ tierOf c.pServiceNames q := by
  have h := tierLoop_primaries_names K hc.name_key ev (tierOf c.pServiceNames q) tr w
  have hm : e.name ∈ (primaries (tierLoop K c ev (tierOf c.pServiceNames q) tr w).2.2).map
      (fun x => x.name) := List.mem_map.2 ⟨e, mem_primaries.2 ⟨he, hp⟩, rfl⟩
  rw [h] at hm
  exact (List.mem_filter.1 hm).1

theorem tier_primary (K : EventKind σ α) {c : Controller σ} (hc : WellFormed c) (ev : α)
    (q : Int) (tr : Bool) (w : σ) (e : Invocation α)
    (he : e ∈ (tierLoop K c ev (tierOf c.pServiceNames q) tr w).2.2) (hp : e.post = false) :
    IsPrimaryOfTier c q e :=
  ⟨hp, priorityOf_of_mem_tier hc (tier_primary_mem K hc ev q tr w e he hp)⟩

theorem tier_all_invoked (K : EventKind σ α) {c : Controller σ} (hc : WellFormed c) (ev : α)
    (q : Int) (tr : Bool) (w : σ) (n : String) (hn : n ∈ tierOf c.pServiceNames q) :
    ∃ e ∈ (tierLoop K c ev (tierOf c.pServiceNames q) tr w).2.2,
      e.post = false ∧ e.name = n := by
  have h := tierLoop_primaries_names K hc.name_key ev (tierOf c.pServiceNames q) tr w
  have hm : n ∈ (tierOf c.pServiceNames q).filter (registered c) :=
    List.mem_filter.2 ⟨hn, registered_of_mem_tier hc hn⟩
  rw [← h] at hm
  obtain ⟨e, he, hen⟩ := List.mem_map.1 hm
  exact ⟨e, (mem_primaries.1 he).1, (mem_primaries.1 he).2, hen⟩

theorem tier_vote_true (K : EventKind σ α) (c : Controller σ) (ev : α)
    (names : List String) (w : σ) :
    (tierLoop K c ev names false w).1 = true ↔
      ∃ e ∈ (tierLoop K c ev names false w).2.2, e.post = false ∧ e.transparent = true := by
  rw [tierLoop_vote]
  simp only [Bool.false_or, List.any_eq_true]
  constructor
  · rintro ⟨e, he, ht⟩
    exact ⟨e, (mem_primaries.1 he).1, (mem_primaries.1 he).2, ht⟩
  · rintro ⟨e, he, hp, ht⟩
    exact ⟨e, mem_primaries.2 ⟨he, hp⟩, ht⟩

theorem priorityLoop_primary (K : EventKind σ α) {c : Controller σ} (hc : WellFormed c)
    (ev : α) (ps : List Int) (w : σ) (e : Invocation α)
    (he : e ∈ (priorityLoop K c ev ps w).2) (hp : e.post = false) :
    ∃ q ∈ ps, 0 ≤ q ∧ e.name ∈ tierOf c.pServiceNames q := by
  induction ps generalizing w with
  | nil => simp [priorityLoop] at he
  | cons p rest ih =>
    rcases priorityLoop_cases K c ev p rest w with ⟨_, h⟩ | ⟨h0, _, _, h⟩ | ⟨h0, _, _, h⟩
    · rw [h] at he
      obtain ⟨q, hq, hq0, hm⟩ := ih w he
      exact ⟨q, List.mem_cons_of_mem _ hq, hq0, hm⟩
    · rw [h] at he
      exact ⟨p, List.mem_cons_self _ _, h0, tier_primary_mem K hc ev p false w e he hp⟩
    · rw [h] at he
      rcases List.mem_append.1 he with he | he
      · exact ⟨p, List.mem_cons_self _ _, h0, tier_primary_mem K hc ev p false w e he hp⟩
      · obtain ⟨q, hq, hq0, hm⟩ := ih _ he
        exact ⟨q, List.mem_cons_of_mem _ hq, hq0, hm⟩

theorem priorityLoop_primary_tier (K : EventKind σ α) {c : Controller σ} (hc : WellFormed c)
    (ev : α) (ps : List Int) (w : σ) (e : Invocation α) (q : Int)
    (he : e ∈ (priorityLoop K c ev ps w).2) (hq : IsPrimaryOfTier c q e) : q ∈ ps ∧ 0 ≤ q := by
  obtain ⟨q', hq', hq0, hm⟩ := priorityLoop_primary K hc ev ps w e he hq.1
  have h1 := priorityOf_of_mem_tier hc hm
  have h2 := hq.2
  rw [h1] at h2
  cases h2
  exact ⟨hq', hq0⟩

/-! ## Sorting the priorities -/

theorem sortInts_perm (l : List Int) : (sortInts l).Perm l :=
  List.perm_insertionSort _ l

theorem sortInts_sorted (l : List Int) : (sortInts l).Sorted (· ≤ ·) :=
  List.sorted_insertionSort _ l

theorem sortInts_strict {l : List Int} (h : l.Nodup) : (sortInts l).Pairwise (· < ·) := by
  have hs : (sortInts l).Pairwise (· ≤ ·) := sortInts_sorted l
  have hn : (sortInts l).Nodup := (sortInts_perm l).nodup_iff.2 h
  have := hs.and hn
  exact this.imp (fun ⟨h1, h2⟩ => lt_of_le_of_ne h1 h2)

theorem sortInts_keys {c : Controller σ} (hc : WellFormed c) {order : List Int}
    (ho : order.Perm (GoMap.keys c.pServiceNames)) :
    (sortInts order).Pairwise (· < ·) :=
  sortInts_strict (ho.nodup_iff.2 hc.keys_nodup)

theorem sortInts_eq_of_perm {l₁ l₂ : List Int} (h : l₁.Perm l₂) : sortInts l₁ = sortInts l₂ :=
  List.eq_of_perm_of_sorted ((sortInts_perm l₁).trans (h.trans (sortInts_perm l₂).symm))
    (sortInts_sorted l₁) (sortInts_sorted l₂)

/-! ## Registration -/

/-- **C1.** Registering a record whose name is already a key of the registry
returns `false`, leaves the controller (registry and priority index) exactly as
it was, calls no `Init`, and leaves the handler state untouched. -/
theorem registerService_duplicate (c : Controller σ) (r : stService σ) (w : σ)
    (h : r.name ∈ GoMap.keys c.nServices) :
    (RegisterService c r w).ok = false ∧
    (RegisterService c r w).ctrl = c ∧
    (RegisterService c r w).ctrl.nServices = c.nServices ∧
    (RegisterService c r w).ctrl.pServiceNames = c.pServiceNames ∧
    (RegisterService c r w).inits = [] ∧
    (RegisterService c r w).world = w := by
  have hs := (GoMap.lookup_isSome_iff c.nServices r.name).2 h
  unfold RegisterService
  cases hl : GoMap.lookup c.nServices r.name with
  | none => rw [hl] at hs; cases hs
  | some s => simp

/-- **C2.** Registering a record whose name is not a key of the registry returns
`true`; the new registry is the old one plus the binding `r.name -> r`; the new
priority index has `r.name` appended to the list under `r.priority` and every
other tier as before; `Init` of the record's handler is called exactly once. -/
theorem registerService_fresh (c : Controller σ) (r : stService σ) (w : σ)
    (h : r.name ∉ GoMap.keys c.nServices) :
    (RegisterService c r w).ok = true ∧
    (∀ k, GoMap.lookup (RegisterService c r w).ctrl.nServices k =
      if k = r.name then some r else GoMap.lookup c.nServices k) ∧
    GoMap.keys (RegisterService c r w).ctrl.nServices = GoMap.keys c.nServices ++ [r.name] ∧
    tierOf (RegisterService c r w).ctrl.pServiceNames r.priority =
      tierOf c.pServiceNames r.priority ++ [r.name] ∧
    (∀ p, p ≠ r.priority →
      GoMap.lookup (RegisterService c r w).ctrl.pServiceNames p =
        GoMap.lookup c.pServiceNames p) ∧
    (∀ p, p ∈ GoMap.keys (RegisterService c r w).ctrl.pServiceNames ↔
      p ∈ GoMap.keys c.pServiceNames ∨ p = r.priority) ∧
    (RegisterService c r w).inits = [r.name] ∧
    (RegisterService c r w).world = r.service.Init w := by
  have hn := (GoMap.lookup_eq_none_iff c.nServices r.name).2 h
  simp only [RegisterService, hn]
  refine ⟨trivial, ?_, ?_, ?_, ?_, ?_, trivial, trivial⟩
  · intro k; exact GoMap.lookup_store _ _ _ _
  · exact GoMap.keys_store_of_not_mem _ _ h
  · exact tierOf_store_self _ _ _
  · intro p hp; exact GoMap.lookup_store_ne _ _ hp
  · intro p; exact GoMap.mem_keys_store _ _ _ _

/-- Witness of C1: a second record named `A` offered to `ctrlA`. -/
theorem registerService_duplicate_witness :
    (NewService "A" (constHandler "" false) 5).name ∈ GoMap.keys ctrlA.nServices ∧
    ((RegisterService ctrlA (NewService "A" (constHandler "" false) 5) 3).ok = false ∧
     (RegisterService ctrlA (NewService "A" (constHandler "" false) 5) 3).ctrl = ctrlA ∧
     (RegisterService ctrlA (NewService "A" (constHandler "" false) 5) 3).ctrl.nServices =
       ctrlA.nServices ∧
     (RegisterService ctrlA (NewService "A" (constHandler "" false) 5) 3).ctrl.pServiceNames =
       ctrlA.pServiceNames ∧
     (RegisterService ctrlA (NewService "A" (constHandler "" false) 5) 3).inits = [] ∧
     (RegisterService ctrlA (NewService "A" (constHandler "" false) 5) 3).world = 3) :=
  ⟨by decide, registerService_duplicate ctrlA (NewService "A" (constHandler "" false) 5) 3
    (by decide)⟩

/-- Witness of C2: a record named `B` offered to `ctrlA`. -/
theorem registerService_fresh_witness :
    (NewService "B" (constHandler "" false) 0).name ∉ GoMap.keys ctrlA.nServices ∧
    (RegisterService ctrlA (NewService "B" (constHandler "" false) 0) 3).ok = true ∧
    tierOf (RegisterService ctrlA (NewService "B" (constHandler "" false) 0) 3).ctrl.pServiceNames
      0 = ["A", "B"] ∧
    (RegisterService ctrlA (NewService "B" (constHandler "" false) 0) 3).inits = ["B"] ∧
    (RegisterService ctrlA (NewService "B" (constHandler "" false) 0) 3).world = 103 :=
  have h := registerService_fresh ctrlA (NewService "B" (constHandler "" false) 0) 3 (by decide)
  ⟨by decide, h.1, h.2.2.2.1, h.2.2.2.2.2.2.1, h.2.2.2.2.2.2.2⟩

/-! ## A closed tier stops the dispatch -/

theorem reachable_registerAll {c : Controller σ} (h : Reachable c) (rs : List (stService σ))
    (w : σ) : Reachable (registerAll c rs w).1 := by
  induction rs generalizing c w with
  | nil => exact h
  | cons r rest ih => exact ih (Reachable.register c r w h) _

theorem IsPrimaryOfTier.unique {c : Controller σ} {p q : Int} {e : Invocation α}
    (hp : IsPrimaryOfTier c p e) (hq : IsPrimaryOfTier c q e) : p = q := by
  have h := hp.2
  rw [hq.2] at h
  exact (Option.some.inj h).symm

theorem closedTier_generic (K : EventKind σ α) {c : Controller σ} (hc : WellFormed c) (ev : α)
    (ps : List Int) (hps : ps.Pairwise (· < ·)) (w : σ) (p : Int)
    (hproc : ∃ e ∈ (priorityLoop K c ev ps w).2, IsPrimaryOfTier c p e)
    (hclosed : ∀ e ∈ (priorityLoop K c ev ps w).2, IsPrimaryOfTier c p e →
      e.transparent = false) :
    ∀ q, p < q → ∀ e ∈ (priorityLoop K c ev ps w).2, ¬ IsPrimaryOfTier c q e := by
  induction ps generalizing w with
  | nil =>
    intro q _ e he
    simp [priorityLoop] at he
  | cons p0 rest ih =>
    have hrest : rest.Pairwise (· < ·) := (List.pairwise_cons.1 hps).2
    have hlt : ∀ x ∈ rest, p0 < x := (List.pairwise_cons.1 hps).1
    rcases priorityLoop_cases K c ev p0 rest w with ⟨_, h⟩ | ⟨_, _, _, h⟩ | ⟨_, _, ht, h⟩
    · rw [h] at hproc hclosed ⊢
      exact ih hrest w hproc hclosed
    · rw [h] at hproc hclosed ⊢
      intro q hq e he hqe
      obtain ⟨e', he', hpe'⟩ := hproc
      have h1 := (tier_primary K hc ev p0 false w e he hqe.1).unique hqe
      have h2 := (tier_primary K hc ev p0 false w e' he' hpe'.1).unique hpe'
      omega
    · rw [h] at hproc hclosed ⊢
      obtain ⟨e1, he1, hp1, hv1⟩ := (tier_vote_true K c ev _ w).1 ht
      have hne : p ≠ p0 := by
        intro hpp
        have h1 := tier_primary K hc ev p0 false w e1 he1 hp1
        rw [← hpp] at h1
        have := hclosed e1 (List.mem_append_left _ he1) h1
        rw [hv1] at this
        cases this
      obtain ⟨e', he', hpe'⟩ := hproc
      have he'2 : e' ∈ (priorityLoop K c ev rest
          (tierLoop K c ev (tierOf c.pServiceNames p0) false w).2.1).2 := by
        rcases List.mem_append.1 he' with hm | hm
        · exact absurd ((tier_primary K hc ev p0 false w e' hm hpe'.1).unique hpe').symm hne
        · exact hm
      have hp0 : p0 < p := hlt p (priorityLoop_primary_tier K hc ev rest _ e' p he'2 hpe').1
      intro q hq e he hqe
      rcases List.mem_append.1 he with hm | hm
      · have h1 := (tier_primary K hc ev p0 false w e hm hqe.1).unique hqe
        omega
      · exact ih hrest _ ⟨e', he'2, hpe'⟩
          (fun x hx hxp => hclosed x (List.mem_append_right _ hx) hxp) q hq e hm hqe

/-- **C3.** On a reachable controller, in `OnGroupMsg` and in `OnPrivateMsg`: if
some tier `p >= 0` is processed (one of its handlers gets a primary invocation)
and every primary invocation of a handler of tier `p` returns `propagate =
false`, then no handler registered at a priority greater than `p` is invoked
with `post = false` in that dispatch. -/
theorem closed_tier_stops_dispatch (c : Controller σ) (hc : Reachable c) (order : List Int)
    (ho : order.Perm (GoMap.keys c.pServiceNames)) (gev : GroupMsg) (pev : PrivateMsg)
    (w : σ) (p : Int) (_hp : 0 ≤ p) :
    ((∃ e ∈ (OnGroupMsg c order gev w).trace, IsPrimaryOfTier c p e) →
      (∀ e ∈ (OnGroupMsg c order gev w).trace, IsPrimaryOfTier c p e →
        e.transparent = false) →
      ∀ q, p < q → ∀ e ∈ (OnGroupMsg c order gev w).trace, ¬ IsPrimaryOfTier c q e) ∧
    ((∃ e ∈ (OnPrivateMsg c order pev w).trace, IsPrimaryOfTier c p e) →
      (∀ e ∈ (OnPrivateMsg c order pev w).trace, IsPrimaryOfTier c p e →
        e.transparent = false) →
      ∀ q, p < q → ∀ e ∈ (OnPrivateMsg c order pev w).trace, ¬ IsPrimaryOfTier c q e) := by
  have hw := wellFormed_of_reachable hc
  have hs := sortInts_keys hw ho
  rw [OnGroupMsg_trace, OnPrivateMsg_trace]
  exact ⟨closedTier_generic groupKind hw gev _ hs w p,
    closedTier_generic privateKind hw pev _ hs w p⟩

/-- Witness of C3: tiers 0, 1, 2 with a tier 0 whose only handler votes
`false`; tier 0 is processed and no handler of tier 1 or 2 is invoked. -/
theorem closed_tier_stops_dispatch_witness :
    Reachable ctrlGate ∧ [2, 0, 1].Perm (GoMap.keys ctrlGate.pServiceNames) ∧ (0 : Int) ≤ 0 ∧
    ((∃ e ∈ (OnGroupMsg ctrlGate [2, 0, 1] sampleGroup 5).trace, IsPrimaryOfTier ctrlGate 0 e) ∧
      (∀ e ∈ (OnGroupMsg ctrlGate [2, 0, 1] sampleGroup 5).trace, IsPrimaryOfTier ctrlGate 0 e →
        e.transparent = false) ∧
      (∀ q, 0 < q → ∀ e ∈ (OnGroupMsg ctrlGate [2, 0, 1] sampleGroup 5).trace,
        ¬ IsPrimaryOfTier ctrlGate q e)) ∧
    ((∃ e ∈ (OnPrivateMsg ctrlGate [2, 0, 1] samplePrivate 5).trace,
        IsPrimaryOfTier ctrlGate 0 e) ∧
      (∀ e ∈ (OnPrivateMsg ctrlGate [2, 0, 1] samplePrivate 5).trace,
        IsPrimaryOfTier ctrlGate 0 e → e.transparent = false) ∧
      (∀ q, 0 < q → ∀ e ∈ (OnPrivateMsg ctrlGate [2, 0, 1] samplePrivate 5).trace,
        ¬ IsPrimaryOfTier ctrlGate q e)) :=
  have h := closed_tier_stops_dispatch ctrlGate (reachable_registerAll Reachable.new _ _)
    [2, 0, 1] (by decide) sampleGroup samplePrivate 5 0 (by decide)
  ⟨reachable_registerAll Reachable.new _ _, by decide, by decide,
    ⟨by decide, by decide, h.1 (by decide) (by decide)⟩,
    ⟨by decide, by decide, h.2 (by decide) (by decide)⟩⟩

/-! ## One vote opens a tier -/

theorem openTiers_generic (K : EventKind σ α) {c : Controller σ} (hc : WellFormed c) (ev : α)
    (ps : List Int) (hps : ps.Pairwise (· < ·)) (w : σ) (q : Int) (hq : q ∈ ps) (hq0 : 0 ≤ q)
    (hopen : ∀ p ∈ ps, 0 ≤ p → p < q →
      ∃ e ∈ (priorityLoop K c ev ps w).2, IsPrimaryOfTier c p e ∧ e.transparent = true) :
    ∀ n ∈ tierOf c.pServiceNames q,
      ∃ e ∈ (priorityLoop K c ev ps w).2, e.post = false ∧ e.name = n := by
  induction ps generalizing w with
  | nil => simp at hq
  | cons p0 rest ih =>
    have hrest : rest.Pairwise (· < ·) := (List.pairwise_cons.1 hps).2
    have hlt : ∀ x ∈ rest, p0 < x := (List.pairwise_cons.1 hps).1
    intro n hn
    by_cases hqp : q = p0
    · subst hqp
      rcases priorityLoop_cases K c ev q rest w with ⟨hs, _⟩ | ⟨_, _, _, h⟩ | ⟨_, _, _, h⟩
      · rcases hs with hs | hs
        · omega
        · rw [hs] at hn; simp at hn
      · rw [h]
        exact tier_all_invoked K hc ev q false w n hn
      · rw [h]
        obtain ⟨e, he, hep⟩ := tier_all_invoked K hc ev q false w n hn
        exact ⟨e, List.mem_append_left _ he, hep⟩
    · have hqr : q ∈ rest := by
        rcases List.mem_cons.1 hq with h | h
        · exact absurd h hqp
        · exact h
      have hp0q : p0 < q := hlt q hqr
      rcases priorityLoop_cases K c ev p0 rest w with ⟨_, h⟩ | ⟨h0, _, ht, h⟩ | ⟨_, _, _, h⟩
      · rw [h] at hopen ⊢
        exact ih hrest w hqr (fun p hp => hopen p (List.mem_cons_of_mem _ hp)) n hn
      · rw [h] at hopen
        obtain ⟨e, he, hep, hev⟩ := hopen p0 (List.mem_cons_self _ _) h0 hp0q
        have := (tier_vote_true K c ev _ w).2 ⟨e, he, hep.1, hev⟩
        rw [ht] at this
        cases this
      · rw [h] at hopen ⊢
        have hopen' : ∀ p ∈ rest, 0 ≤ p → p < q →
            ∃ e ∈ (priorityLoop K c ev rest
              (tierLoop K c ev (tierOf c.pServiceNames p0) false w).2.1).2,
              IsPrimaryOfTier c p e ∧ e.transparent = true := by
          intro p hp hp0 hpq
          obtain ⟨e, he, hep, hev⟩ := hopen p (List.mem_cons_of_mem _ hp) hp0 hpq
          rcases List.mem_append.1 he with hm | hm
          · have := (tier_primary K hc ev p0 false w e hm hep.1).unique hep
            have := hlt p hp
            omega
          · exact ⟨e, hm, hep, hev⟩
        obtain ⟨e, he, hep⟩ := ih hrest _ hqr hopen' n hn
        exact ⟨e, List.mem_append_right _ he, hep⟩

theorem tierOf_of_not_mem_keys (m : GoMap Int (List String)) (q : Int)
    (h : q ∉ GoMap.keys m) : tierOf m q = [] := by
  simp [tierOf, (GoMap.lookup_eq_none_iff m q).2 h]

/-- **C4.** On a reachable controller, in `OnGroupMsg` and in `OnPrivateMsg`: a
tier `q >= 0` is processed, each of its handlers getting a primary invocation,
whenever every registered tier `p` with `0 <= p < q` has at least one handler
whose primary invocation returns `propagate = true`, whatever the other
handlers of those tiers return. -/
theorem one_vote_opens_tier (c : Controller σ) (hc : Reachable c) (order : List Int)
    (ho : order.Perm (GoMap.keys c.pServiceNames)) (gev : GroupMsg) (pev : PrivateMsg)
    (w : σ) (q : Int) (hq : 0 ≤ q) :
    ((∀ p ∈ GoMap.keys c.pServiceNames, 0 ≤ p → p < q →
        ∃ e ∈ (OnGroupMsg c order gev w).trace,
          IsPrimaryOfTier c p e ∧ e.transparent = true) →
      ∀ n ∈ tierOf c.pServiceNames q,
        ∃ e ∈ (OnGroupMsg c order gev w).trace, e.post = false ∧ e.name = n) ∧
    ((∀ p ∈ GoMap.keys c.pServiceNames, 0 ≤ p → p < q →
        ∃ e ∈ (OnPrivateMsg c order pev w).trace,
          IsPrimaryOfTier c p e ∧ e.transparent = true) →
      ∀ n ∈ tierOf c.pServiceNames q,
        ∃ e ∈ (OnPrivateMsg c order pev w).trace, e.post = false ∧ e.name = n) := by
  have hw := wellFormed_of_reachable hc
  have hs := sortInts_keys hw ho
  have hmem : ∀ p, p ∈ sortInts order ↔ p ∈ GoMap.keys c.pServiceNames := fun p =>
    ((sortInts_perm order).trans ho).mem_iff
  rw [OnGroupMsg_trace, OnPrivateMsg_trace]
  by_cases hk : q ∈ GoMap.keys c.pServiceNames
  · exact ⟨fun h => openTiers_generic groupKind hw gev _ hs w q ((hmem q).2 hk) hq
      (fun p hp => h p ((hmem p).1 hp)),
      fun h => openTiers_generic privateKind hw pev _ hs w q ((hmem q).2 hk) hq
        (fun p hp => h p ((hmem p).1 hp))⟩
  · rw [tierOf_of_not_mem_keys _ q hk]
    exact ⟨fun _ n hn => absurd hn (List.not_mem_nil n),
      fun _ n hn => absurd hn (List.not_mem_nil n)⟩

/-- Witness of C4: `yes` and `no` at priority 0 return `true` and `false`;
`next` at priority 1 is invoked. -/
theorem one_vote_opens_tier_witness :
    Reachable ctrlMixed ∧ [1, 0].Perm (GoMap.keys ctrlMixed.pServiceNames) ∧ (0 : Int) ≤ 1 ∧
    ((∀ p ∈ GoMap.keys ctrlMixed.pServiceNames, 0 ≤ p → p < 1 →
        ∃ e ∈ (OnGroupMsg ctrlMixed [1, 0] sampleGroup 5).trace,
          IsPrimaryOfTier ctrlMixed p e ∧ e.transparent = true) ∧
      (∃ e ∈ (OnGroupMsg ctrlMixed [1, 0] sampleGroup 5).trace,
        e.post = false ∧ e.name = "next")) ∧
    ((∀ p ∈ GoMap.keys ctrlMixed.pServiceNames, 0 ≤ p → p < 1 →
        ∃ e ∈ (OnPrivateMsg ctrlMixed [1, 0] samplePrivate 5).trace,
          IsPrimaryOfTier ctrlMixed p e ∧ e.transparent = true) ∧
      (∃ e ∈ (OnPrivateMsg ctrlMixed [1, 0] samplePrivate 5).trace,
        e.post = false ∧ e.name = "next")) :=
  have h := one_vote_opens_tier ctrlMixed (reachable_registerAll Reachable.new _ _)
    [1, 0] (by decide) sampleGroup samplePrivate 5 1 (by decide)
  ⟨reachable_registerAll Reachable.new _ _, by decide, by decide,
    ⟨by decide, h.1 (by decide) "next" (by decide)⟩,
    ⟨by decide, h.2 (by decide) "next" (by decide)⟩⟩

/-! ## Negative tiers -/

theorem GoMap.lookup_filter {κ α : Type} [DecidableEq κ] (m : GoMap κ α) (f : κ → Bool)
    (k : κ) (h : f k = true) :
    GoMap.lookup (m.filter (fun b => f b.1)) k = GoMap.lookup m k := by
  induction m with
  | nil => rfl
  | cons b rest ih =>
    obtain ⟨k', v⟩ := b
    by_cases hf : f k' = true
    · simp only [List.filter_cons, hf, if_true, GoMap.lookup, ih]
    · have hne : ¬ k' = k := fun e => hf (e ▸ h)
      simp only [List.filter_cons, hf, GoMap.lookup, hne, if_false]
      exact ih

theorem GoMap.keys_filter {κ α : Type} (m : GoMap κ α) (f : κ → Bool) :
    GoMap.keys (m.filter (fun b => f b.1)) = (GoMap.keys m).filter f := by
  induction m with
  | nil => rfl
  | cons b rest ih =>
    obtain ⟨k', v⟩ := b
    by_cases hf : f k' = true
    · simp only [GoMap.keys] at ih
      simp [GoMap.keys, List.filter_cons, hf, ih]
    · simp only [GoMap.keys] at ih
      simp [GoMap.keys, List.filter_cons, hf, ih]

theorem postLoop_registry (K : EventKind σ α) {c c' : Controller σ}
    (h : c'.nServices = c.nServices) (ev : α) (reply : String) (names : List String) (w : σ) :
    postLoop K c' ev reply names w = postLoop K c ev reply names w := by
  induction names generalizing w with
  | nil => rfl
  | cons n rest ih => simp only [postLoop, h, ih]

theorem tierLoop_registry (K : EventKind σ α) {c c' : Controller σ}
    (h : c'.nServices = c.nServices) (ev : α) (names : List String) (tr : Bool) (w : σ) :
    tierLoop K c' ev names tr w = tierLoop K c ev names tr w := by
  induction names generalizing tr w with
  | nil => rfl
  | cons n rest ih => simp only [tierLoop, h, ih, postLoop_registry K h]

theorem priorityLoop_index (K : EventKind σ α) {c c' : Controller σ}
    (h : c'.nServices = c.nServices)
    (ht : ∀ p, 0 ≤ p → tierOf c'.pServiceNames p = tierOf c.pServiceNames p) (ev : α)
    (ps : List Int) (w : σ) :
    priorityLoop K c' ev ps w = priorityLoop K c ev ps w := by
  induction ps generalizing w with
  | nil => rfl
  | cons p rest ih =>
    by_cases hp : p < 0
    · simp only [priorityLoop, hp, if_true, ih]
    · simp only [priorityLoop, hp, if_false, ih, ht p (not_lt.mp hp), tierLoop_registry K h]

theorem priorityLoop_filter (K : EventKind σ α) (c : Controller σ) (ev : α) (ps : List Int)
    (w : σ) :
    priorityLoop K c ev (ps.filter (fun p => decide (0 ≤ p))) w = priorityLoop K c ev ps w := by
  induction ps generalizing w with
  | nil => rfl
  | cons p rest ih =>
    by_cases hp : p < 0
    · have h0 : ¬ 0 ≤ p := not_le.mpr hp
      simp only [List.filter_cons, h0, decide_False, Bool.false_eq_true, if_false, ih,
        priorityLoop_neg K c ev p rest w hp]
    · have h0 : 0 ≤ p := not_lt.mp hp
      simp only [List.filter_cons, h0, decide_True, if_true]
      simp only [priorityLoop, hp, if_false, ih]

theorem sortInts_dropNegative (c : Controller σ) {order order' : List Int}
    (ho : order.Perm (GoMap.keys c.pServiceNames))
    (ho' : order'.Perm (GoMap.keys (dropNegativeTiers c).pServiceNames)) :
    sortInts order' = (sortInts order).filter (fun p => decide (0 ≤ p)) := by
  have hk : GoMap.keys (dropNegativeTiers c).pServiceNames =
      (GoMap.keys c.pServiceNames).filter (fun p => decide (0 ≤ p)) :=
    GoMap.keys_filter c.pServiceNames (fun p => decide (0 ≤ p))
  rw [hk] at ho'
  have h1 : ((sortInts order).filter (fun p => decide (0 ≤ p))).Perm
      ((GoMap.keys c.pServiceNames).filter (fun p => decide (0 ≤ p))) :=
    ((sortInts_perm order).trans ho).filter _
  exact List.eq_of_perm_of_sorted (((sortInts_perm order').trans ho').trans h1.symm)
    (sortInts_sorted order') ((sortInts_sorted order).filter _)

theorem priorityLoop_dropNegative (K : EventKind σ α) (c : Controller σ)
    {order order' : List Int} (ho : order.Perm (GoMap.keys c.pServiceNames))
    (ho' : order'.Perm (GoMap.keys (dropNegativeTiers c).pServiceNames)) (ev : α) (w : σ) :
    priorityLoop K (dropNegativeTiers c) ev (sortInts order') w =
      priorityLoop K c ev (sortInts order) w := by
  rw [sortInts_dropNegative c ho ho', priorityLoop_filter]
  refine priorityLoop_index K (show (dropNegativeTiers c).nServices = c.nServices from rfl)
    ?_ ev _ w
  intro p hp
  simp only [tierOf, dropNegativeTiers]
  rw [GoMap.lookup_filter c.pServiceNames (fun p => decide (0 ≤ p)) p (by simpa using hp)]

theorem OnGroupMsg_eq (c : Controller σ) (order : List Int) (ev : GroupMsg) (w : σ) :
    OnGroupMsg c order ev w =
      { code := 0, world := (priorityLoop groupKind c ev (sortInts order) w).1,
        trace := (priorityLoop groupKind c ev (sortInts order) w).2 } := by
  simp [OnGroupMsg, priorityLoopGroup_eq]

theorem OnPrivateMsg_eq (c : Controller σ) (order : List Int) (ev : PrivateMsg) (w : σ) :
    OnPrivateMsg c order ev w =
      { code := 0, world := (priorityLoop privateKind c ev (sortInts order) w).1,
        trace := (priorityLoop privateKind c ev (sortInts order) w).2 } := by
  simp [OnPrivateMsg, priorityLoopPrivate_eq]

theorem negative_generic (K : EventKind σ α) {c : Controller σ} (hc : WellFormed c) (ev : α)
    (ps : List Int) (w : σ) (p : Int) (hp : p < 0) :
    ∀ e ∈ (priorityLoop K c ev ps w).2, ¬ IsPrimaryOfTier c p e := by
  intro e he hpe
  have := (priorityLoop_primary_tier K hc ev ps w e p he hpe).2
  omega

/-- **C5.** On a reachable controller, in `OnGroupMsg` and in `OnPrivateMsg`: a
handler registered with a negative priority is never invoked with `post =
false`; and the dispatch (trace, final handler state and code) is the one of the
same controller with the negative tiers removed from the priority index. -/
theorem negative_tiers_excluded (c : Controller σ) (hc : Reachable c) (order : List Int)
    (ho : order.Perm (GoMap.keys c.pServiceNames)) (order' : List Int)
    (ho' : order'.Perm (GoMap.keys (dropNegativeTiers c).pServiceNames))
    (gev : GroupMsg) (pev : PrivateMsg) (w : σ) :
    (∀ p, p < 0 → ∀ e ∈ (OnGroupMsg c order gev w).trace, ¬ IsPrimaryOfTier c p e) ∧
    (∀ p, p < 0 → ∀ e ∈ (OnPrivateMsg c order pev w).trace, ¬ IsPrimaryOfTier c p e) ∧
    OnGroupMsg c order gev w = OnGroupMsg (dropNegativeTiers c) order' gev w ∧
    OnPrivateMsg c order pev w = OnPrivateMsg (dropNegativeTiers c) order' pev w := by
  have hw := wellFormed_of_reachable hc
  refine ⟨?_, ?_, ?_, ?_⟩
  · rw [OnGroupMsg_trace]
    exact fun p hp => negative_generic groupKind hw gev _ w p hp
  · rw [OnPrivateMsg_trace]
    exact fun p hp => negative_generic privateKind hw pev _ w p hp
  · rw [OnGroupMsg_eq, OnGroupMsg_eq, priorityLoop_dropNegative groupKind c ho ho']
  · rw [OnPrivateMsg_eq, OnPrivateMsg_eq, priorityLoop_dropNegative privateKind c ho ho']

/-- Witness of C5: `log` at priority -1 gets no primary invocation, and the
trace is that of the controller without tier -1. -/
theorem negative_tiers_excluded_witness :
    Reachable ctrlNeg ∧ [1, -1, 0].Perm (GoMap.keys ctrlNeg.pServiceNames) ∧
    [1, 0].Perm (GoMap.keys (dropNegativeTiers ctrlNeg).pServiceNames) ∧
    priorityOf ctrlNeg "log" = some (-1) ∧
    (∀ e ∈ (OnGroupMsg ctrlNeg [1, -1, 0] sampleGroup 5).trace,
      ¬ IsPrimaryOfTier ctrlNeg (-1) e) ∧
    (∀ e ∈ (OnPrivateMsg ctrlNeg [1, -1, 0] samplePrivate 5).trace,
      ¬ IsPrimaryOfTier ctrlNeg (-1) e) ∧
    OnGroupMsg ctrlNeg [1, -1, 0] sampleGroup 5 =
      OnGroupMsg (dropNegativeTiers ctrlNeg) [1, 0] sampleGroup 5 ∧
    OnPrivateMsg ctrlNeg [1, -1, 0] samplePrivate 5 =
      OnPrivateMsg (dropNegativeTiers ctrlNeg) [1, 0] samplePrivate 5 :=
  have h := negative_tiers_excluded ctrlNeg (reachable_registerAll Reachable.new _ _)
    [1, -1, 0] (by decide) [1, 0] (by decide) sampleGroup samplePrivate 5
  ⟨reachable_registerAll Reachable.new _ _, by decide, by decide, by decide,
    h.1 (-1) (by decide), h.2.1 (-1) (by decide), h.2.2.1, h.2.2.2⟩

/-! ## Blocks: a primary invocation and the post invocations it causes -/

theorem BlockTrace.takeWhile_post {K : EventKind σ α} {c : Controller σ} {ev : α}
    {t : List (Invocation α)} (h : BlockTrace K c ev t) :
    t.takeWhile (fun x => x.post) = [] := by
  cases h with
  | nil => rfl
  | block g posts rest s h1 _ _ _ _ _ => simp [List.takeWhile_cons, h1]

theorem BlockTrace.primary_args {K : EventKind σ α} {c : Controller σ} {ev : α}
    {t : List (Invocation α)} (h : BlockTrace K c ev t) :
    ∀ e ∈ t, e.post = false → e.args = ev := by
  induction h with
  | nil => intro e he; simp at he
  | block g posts rest s h1 h2 _ h4 _ _ ih =>
    intro e he hp
    rcases List.mem_cons.1 he with rfl | he
    · exact h2
    · rcases List.mem_append.1 he with hm | hm
      · rw [(h4 e hm).1] at hp; cases hp
      · exact ih e hm hp

/-- What follows a primary invocation in a block trace. -/
theorem BlockTrace.after_primary {K : EventKind σ α} {c : Controller σ} {ev : α}
    {t : List (Invocation α)} (h : BlockTrace K c ev t) :
    ∀ pre g suf, t = pre ++ g :: suf → g.post = false →
      ∃ s, GoMap.lookup c.nServices g.name = some s ∧
        (suf.takeWhile (fun x => x.post)).map (fun x => x.name) =
          (if g.reply = "" then [] else s.postServiceNames.filter (registered c)) := by
  induction h with
  | nil => intro pre g suf h; simp at h
  | block g0 posts0 rest0 s h1 _ h3 h4 h5 hrest ih =>
    intro pre g suf hsplit hg
    cases pre with
    | nil =>
      simp only [List.nil_append, List.cons.injEq] at hsplit
      obtain ⟨rfl, rfl⟩ := hsplit
      refine ⟨s, h3, ?_⟩
      rw [List.takeWhile_append_of_pos (fun a ha => (h4 a ha).1), hrest.takeWhile_post,
        List.append_nil]
      exact h5
    | cons a pre1 =>
      simp only [List.cons_append, List.cons.injEq] at hsplit
      obtain ⟨_, hsplit⟩ := hsplit
      rcases List.append_eq_append_iff.1 hsplit.symm with ⟨a', hA, hB⟩ | ⟨c', hA, hB⟩
      · cases a' with
        | nil =>
          simp only [List.append_nil, List.nil_append] at hA hB
          exact ih [] g suf (by simpa using hB.symm) hg
        | cons x a'' =>
          simp only [List.cons_append, List.cons.injEq] at hB
          have hx : x ∈ posts0 := by rw [hA]; simp
          rw [hB.1, (h4 x hx).1] at hg
          cases hg
      · exact ih c' g suf hB hg

/-- What precedes a post invocation in a block trace. -/
theorem BlockTrace.before_post {K : EventKind σ α} {c : Controller σ} {ev : α}
    {t : List (Invocation α)} (h : BlockTrace K c ev t) :
    ∀ pre e suf, t = pre ++ e :: suf → e.post = true →
      ∃ pre' g posts, pre = pre' ++ g :: posts ∧ g.post = false ∧
        (∀ x ∈ posts, x.post = true) ∧ g.reply ≠ "" ∧ e.args = K.withMsg ev g.reply := by
  induction h with
  | nil => intro pre e suf h; simp at h
  | block g0 posts0 rest0 s h1 _ _ h4 h5 _ ih =>
    intro pre e suf hsplit he
    cases pre with
    | nil =>
      simp only [List.nil_append, List.cons.injEq] at hsplit
      rw [← hsplit.1, h1] at he
      cases he
    | cons a pre1 =>
      simp only [List.cons_append, List.cons.injEq] at hsplit
      obtain ⟨rfl, hsplit⟩ := hsplit
      have hin : ∀ a' x a'', posts0 = pre1 ++ a' → a' = x :: a'' → x = e →
          ∃ pre' g posts, g0 :: pre1 = pre' ++ g :: posts ∧ g.post = false ∧
            (∀ x ∈ posts, x.post = true) ∧ g.reply ≠ "" ∧ e.args = K.withMsg ev g.reply := by
        intro a' x a'' hA ha' hx
        have hmem : e ∈ posts0 := by rw [hA, ha', hx]; simp
        refine ⟨[], g0, pre1, rfl, h1, ?_, ?_, (h4 e hmem).2⟩
        · intro y hy
          exact (h4 y (by rw [hA]; exact List.mem_append_left _ hy)).1
        · intro hr
          rw [hr] at h5
          simp only [if_true, List.map_eq_nil_iff] at h5
          rw [h5] at hmem
          exact absurd hmem (List.not_mem_nil e)
      rcases List.append_eq_append_iff.1 hsplit.symm with ⟨a', hA, hB⟩ | ⟨c', hA, hB⟩
      · cases a' with
        | nil =>
          simp only [List.append_nil, List.nil_append] at hA hB
          obtain ⟨pre', g, posts, hp, hrest⟩ := ih [] e suf (by simpa using hB.symm) he
          simp at hp
        | cons x a'' =>
          simp only [List.cons_append, List.cons.injEq] at hB
          exact hin (x :: a'') x a'' hA rfl hB.1.symm
      · obtain ⟨pre', g, posts, hp, hrest⟩ := ih c' e suf hB he
        refine ⟨g0 :: (posts0 ++ pre'), g, posts, ?_, hrest⟩
        rw [hA, hp]; simp

/-! ## Post-handlers -/

/-- **C6.** On a reachable controller, in `OnGroupMsg` and in `OnPrivateMsg`:
every invocation with `post = false` carries the dispatched event unchanged;
every invocation with `post = true` is preceded by a governing primary
invocation (the last one with `post = false` before it), whose reply is not
empty, and carries the dispatched event with the message text replaced by that
reply and every other field unchanged. -/
theorem post_handler_input (c : Controller σ) (hc : Reachable c) (order : List Int)
    (gev : GroupMsg) (pev : PrivateMsg) (w : σ) :
    (∀ e ∈ (OnGroupMsg c order gev w).trace, e.post = false → e.args = gev) ∧
    (∀ pre e suf, (OnGroupMsg c order gev w).trace = pre ++ e :: suf → e.post = true →
      ∃ pre' g posts, pre = pre' ++ g :: posts ∧ g.post = false ∧
        (∀ x ∈ posts, x.post = true) ∧ g.reply ≠ "" ∧
        e.args = { subType := gev.subType, msgID := gev.msgID, fromGroup := gev.fromGroup,
                   fromQQ := gev.fromQQ, fromAnonymous := gev.fromAnonymous,
                   msg := g.reply, font := gev.font }) ∧
    (∀ e ∈ (OnPrivateMsg c order pev w).trace, e.post = false → e.args = pev) ∧
    (∀ pre e suf, (OnPrivateMsg c order pev w).trace = pre ++ e :: suf → e.post = true →
      ∃ pre' g posts, pre = pre' ++ g :: posts ∧ g.post = false ∧
        (∀ x ∈ posts, x.post = true) ∧ g.reply ≠ "" ∧
        e.args = { subType := pev.subType, msgID := pev.msgID, fromQQ := pev.fromQQ,
                   msg := g.reply, font := pev.font }) := by
  have hw := wellFormed_of_reachable hc
  rw [OnGroupMsg_trace, OnPrivateMsg_trace]
  have hg := priorityLoop_blocks groupKind hw.name_key gev (sortInts order) w
  have hp := priorityLoop_blocks privateKind hw.name_key pev (sortInts order) w
  exact ⟨hg.primary_args, hg.before_post, hp.primary_args, hp.before_post⟩

/-- **C8.** On a reachable controller, in `OnGroupMsg` and in `OnPrivateMsg`: a
primary invocation that returns the empty string is followed by no invocation
with `post = true`: the run of post invocations after it, up to the next primary
invocation or the end of the dispatch, is empty. -/
theorem empty_output_suppressed (c : Controller σ) (hc : Reachable c) (order : List Int)
    (gev : GroupMsg) (pev : PrivateMsg) (w : σ) :
    (∀ pre g suf, (OnGroupMsg c order gev w).trace = pre ++ g :: suf → g.post = false →
      g.reply = "" → suf.takeWhile (fun x => x.post) = []) ∧
    (∀ pre g suf, (OnPrivateMsg c order pev w).trace = pre ++ g :: suf → g.post = false →
      g.reply = "" → suf.takeWhile (fun x => x.post) = []) := by
  have hw := wellFormed_of_reachable hc
  rw [OnGroupMsg_trace, OnPrivateMsg_trace]
  constructor
  · intro pre g suf hs hg hr
    obtain ⟨s, _, h⟩ := (priorityLoop_blocks groupKind hw.name_key gev (sortInts order) w
      ).after_primary pre g suf hs hg
    simpa [hr] using h
  · intro pre g suf hs hg hr
    obtain ⟨s, _, h⟩ := (priorityLoop_blocks privateKind hw.name_key pev (sortInts order) w
      ).after_primary pre g suf hs hg
    simpa [hr] using h

/-- **C9.** On a reachable controller, in `OnGroupMsg` and in `OnPrivateMsg`:
when a primary invocation of the record `r` returns a non-empty reply, the
invocations with `post = true` that follow it, up to the next primary
invocation, are those of the names in `r.postServiceNames` that are registered,
in list order and once per occurrence; unregistered names are passed over. -/
theorem post_fan_out (c : Controller σ) (hc : Reachable c) (order : List Int)
    (gev : GroupMsg) (pev : PrivateMsg) (w : σ) :
    (∀ pre g suf r, (OnGroupMsg c order gev w).trace = pre ++ g :: suf → g.post = false →
      g.reply ≠ "" → GoMap.lookup c.nServices g.name = some r →
      (suf.takeWhile (fun x => x.post)).map (fun x => x.name) =
        r.postServiceNames.filter (registered c)) ∧
    (∀ pre g suf r, (OnPrivateMsg c order pev w).trace = pre ++ g :: suf → g.post = false →
      g.reply ≠ "" → GoMap.lookup c.nServices g.name = some r →
      (suf.takeWhile (fun x => x.post)).map (fun x => x.name) =
        r.postServiceNames.filter (registered c)) := by
  have hw := wellFormed_of_reachable hc
  rw [OnGroupMsg_trace, OnPrivateMsg_trace]
  constructor
  · intro pre g suf r hs hg hr hl
    obtain ⟨s, hs', h⟩ := (priorityLoop_blocks groupKind hw.name_key gev (sortInts order) w
      ).after_primary pre g suf hs hg
    rw [hl] at hs'
    cases hs'
    simpa [hr] using h
  · intro pre g suf r hs hg hr hl
    obtain ⟨s, hs', h⟩ := (priorityLoop_blocks privateKind hw.name_key pev (sortInts order) w
      ).after_primary pre g suf hs hg
    rw [hl] at hs'
    cases hs'
    simpa [hr] using h

/-- Witness of C6 on `ctrlPost`: the first post invocation of `log` carries the
reply `X` of the governing primary invocation of `p`. -/
theorem post_handler_input_witness :
    Reachable ctrlPost ∧
    (∀ e ∈ (OnGroupMsg ctrlPost [5, 0] sampleGroup 5).trace,
      e.post = false → e.args = sampleGroup) ∧
    (∃ pre' g posts,
      (OnGroupMsg ctrlPost [5, 0] sampleGroup 5).trace.take 2 = pre' ++ g :: posts ∧
      g.post = false ∧ (∀ x ∈ posts, x.post = true) ∧ g.reply ≠ "" ∧
      (groupPostOfLog).args =
        { subType := sampleGroup.subType, msgID := sampleGroup.msgID,
          fromGroup := sampleGroup.fromGroup, fromQQ := sampleGroup.fromQQ,
          fromAnonymous := sampleGroup.fromAnonymous, msg := g.reply,
          font := sampleGroup.font }) ∧
    (∀ e ∈ (OnPrivateMsg ctrlPost [5, 0] samplePrivate 5).trace,
      e.post = false → e.args = samplePrivate) ∧
    (∃ pre' g posts,
      (OnPrivateMsg ctrlPost [5, 0] samplePrivate 5).trace.take 2 = pre' ++ g :: posts ∧
      g.post = false ∧ (∀ x ∈ posts, x.post = true) ∧ g.reply ≠ "" ∧
      (privatePostOfLog).args =
        { subType := samplePrivate.subType, msgID := samplePrivate.msgID,
          fromQQ := samplePrivate.fromQQ, msg := g.reply, font := samplePrivate.font }) :=
  have h := post_handler_input ctrlPost (reachable_registerAll Reachable.new _ _) [5, 0]
    sampleGroup samplePrivate 5
  ⟨reachable_registerAll Reachable.new _ _, h.1,
    h.2.1 ((OnGroupMsg ctrlPost [5, 0] sampleGroup 5).trace.take 2) groupPostOfLog
      ((OnGroupMsg ctrlPost [5, 0] sampleGroup 5).trace.drop 3) (by decide) (by decide),
    h.2.2.1,
    h.2.2.2 ((OnPrivateMsg ctrlPost [5, 0] samplePrivate 5).trace.take 2) privatePostOfLog
      ((OnPrivateMsg ctrlPost [5, 0] samplePrivate 5).trace.drop 3) (by decide) (by decide)⟩

/-- Witness of C8 on `ctrlPost`: `q` replies nothing, and although it names the
post-handler `log`, the next invocation is a primary one. -/
theorem empty_output_suppressed_witness :
    Reachable ctrlPost ∧
    (recQ).postServiceNames = ["log"] ∧
    (OnGroupMsg ctrlPost [5, 0] sampleGroup 5).trace =
      (OnGroupMsg ctrlPost [5, 0] sampleGroup 5).trace.take 3 ++
        { name := "q", args := sampleGroup, post := false, reply := "", transparent := true } ::
        (OnGroupMsg ctrlPost [5, 0] sampleGroup 5).trace.drop 4 ∧
    ((OnGroupMsg ctrlPost [5, 0] sampleGroup 5).trace.drop 4).takeWhile (fun x => x.post) = [] ∧
    (OnPrivateMsg ctrlPost [5, 0] samplePrivate 5).trace =
      (OnPrivateMsg ctrlPost [5, 0] samplePrivate 5).trace.take 3 ++
        { name := "q", args := samplePrivate, post := false, reply := "", transparent := true } ::
        (OnPrivateMsg ctrlPost [5, 0] samplePrivate 5).trace.drop 4 ∧
    ((OnPrivateMsg ctrlPost [5, 0] samplePrivate 5).trace.drop 4).takeWhile
      (fun x => x.post) = [] :=
  have h := empty_output_suppressed ctrlPost (reachable_registerAll Reachable.new _ _) [5, 0]
    sampleGroup samplePrivate 5
  ⟨reachable_registerAll Reachable.new _ _, by decide, by decide,
    h.1 _ _ _ (show (OnGroupMsg ctrlPost [5, 0] sampleGroup 5).trace =
      (OnGroupMsg ctrlPost [5, 0] sampleGroup 5).trace.take 3 ++
        { name := "q", args := sampleGroup, post := false, reply := "", transparent := true } ::
        (OnGroupMsg ctrlPost [5, 0] sampleGroup 5).trace.drop 4 by decide) rfl rfl,
    by decide,
    h.2 _ _ _ (show (OnPrivateMsg ctrlPost [5, 0] samplePrivate 5).trace =
      (OnPrivateMsg ctrlPost [5, 0] samplePrivate 5).trace.take 3 ++
        { name := "q", args := samplePrivate, post := false, reply := "", transparent := true } ::
        (OnPrivateMsg ctrlPost [5, 0] samplePrivate 5).trace.drop 4 by decide) rfl rfl⟩

/-- Witness of C9 on `ctrlPost`: `p` replies `X` and names `log`, `ghost`,
`log`; `ghost` is not registered; `log` is invoked twice as post-handler. -/
theorem post_fan_out_witness :
    Reachable ctrlPost ∧
    GoMap.lookup ctrlPost.nServices "p" = some recP ∧
    (recP).postServiceNames = ["log", "ghost", "log"] ∧
    registered ctrlPost "ghost" = false ∧
    (((OnGroupMsg ctrlPost [5, 0] sampleGroup 5).trace.drop 1).takeWhile
        (fun x => x.post)).map (fun x => x.name) =
      (recP).postServiceNames.filter (registered ctrlPost) ∧
    (recP).postServiceNames.filter (registered ctrlPost) = ["log", "log"] ∧
    (((OnPrivateMsg ctrlPost [5, 0] samplePrivate 5).trace.drop 1).takeWhile
        (fun x => x.post)).map (fun x => x.name) =
      (recP).postServiceNames.filter (registered ctrlPost) :=
  have h := post_fan_out ctrlPost (reachable_registerAll Reachable.new _ _) [5, 0]
    sampleGroup samplePrivate 5
  ⟨reachable_registerAll Reachable.new _ _, rfl, by decide, by decide,
    h.1 [] { name := "p", args := sampleGroup, post := false, reply := "X", transparent := true }
      ((OnGroupMsg ctrlPost [5, 0] sampleGroup 5).trace.drop 1) recP (by decide) rfl
      (by decide) rfl,
    by decide,
    h.2 [] { name := "p", args := samplePrivate, post := false, reply := "X",
             transparent := true }
      ((OnPrivateMsg ctrlPost [5, 0] samplePrivate 5).trace.drop 1) recP (by decide) rfl
      (by decide) rfl⟩

/-! ## What post-handlers return is discarded -/

section TwoRuns

variable {σ₁ σ₂ : Type}

theorem lookup_shape_cases {c₁ : Controller σ₁} {c₂ : Controller σ₂}
    (hreg : ∀ n, (GoMap.lookup c₁.nServices n).map stService.shape =
      (GoMap.lookup c₂.nServices n).map stService.shape) (n : String) :
    (GoMap.lookup c₁.nServices n = none ∧ GoMap.lookup c₂.nServices n = none) ∨
    ∃ s₁ s₂, GoMap.lookup c₁.nServices n = some s₁ ∧ GoMap.lookup c₂.nServices n = some s₂ ∧
      s₁.name = s₂.name ∧ s₁.priority = s₂.priority ∧
      s₁.postServiceNames = s₂.postServiceNames := by
  have h := hreg n
  cases h1 : GoMap.lookup c₁.nServices n with
  | none =>
    cases h2 : GoMap.lookup c₂.nServices n with
    | none => exact Or.inl ⟨rfl, rfl⟩
    | some s₂ => rw [h1, h2] at h; simp at h
  | some s₁ =>
    cases h2 : GoMap.lookup c₂.nServices n with
    | none => rw [h1, h2] at h; simp at h
    | some s₂ =>
      rw [h1, h2] at h
      simp only [Option.map_some', Option.some.injEq, stService.shape, Prod.mk.injEq] at h
      exact Or.inr ⟨s₁, s₂, rfl, rfl, h.1, h.2.1, h.2.2⟩

variable (K₁ : EventKind σ₁ α) (K₂ : EventKind σ₂ α) (R : σ₁ → σ₂ → Prop)
  {c₁ : Controller σ₁} {c₂ : Controller σ₂}

theorem postLoop_twoRuns (hwm : K₁.withMsg = K₂.withMsg)
    (hreg : ∀ n, (GoMap.lookup c₁.nServices n).map stService.shape =
      (GoMap.lookup c₂.nServices n).map stService.shape)
    (hcall : ∀ n s₁ s₂, GoMap.lookup c₁.nServices n = some s₁ →
      GoMap.lookup c₂.nServices n = some s₂ → ∀ a post w₁ w₂, R w₁ w₂ →
        R (K₁.call s₁.service a post w₁).2 (K₂.call s₂.service a post w₂).2 ∧
        (post = false → (K₁.call s₁.service a post w₁).1 = (K₂.call s₂.service a post w₂).1))
    (ev : α) (reply : String) (names : List String) (w₁ : σ₁) (w₂ : σ₂) (hR : R w₁ w₂) :
    R (postLoop K₁ c₁ ev reply names w₁).1 (postLoop K₂ c₂ ev reply names w₂).1 ∧
    List.Forall₂ Invocation.agrees (postLoop K₁ c₁ ev reply names w₁).2
      (postLoop K₂ c₂ ev reply names w₂).2 := by
  induction names generalizing w₁ w₂ with
  | nil => exact ⟨hR, List.Forall₂.nil⟩
  | cons n rest ih =>
    rcases lookup_shape_cases hreg n with ⟨h1, h2⟩ | ⟨s₁, s₂, h1, h2, hn, _, _⟩
    · simp only [postLoop, h1, h2]
      exact ih w₁ w₂ hR
    · simp only [postLoop, h1, h2]
      have hstep := (hcall n s₁ s₂ h1 h2 (K₁.withMsg ev reply) true w₁ w₂ hR).1
      rw [← hwm]
      have hrec := ih _ _ hstep
      refine ⟨hrec.1, List.Forall₂.cons ⟨?_, ?_⟩ hrec.2⟩
      · simp [Invocation.observable, hn]
      · intro h; cases h

theorem tierLoop_twoRuns (hwm : K₁.withMsg = K₂.withMsg)
    (hreg : ∀ n, (GoMap.lookup c₁.nServices n).map stService.shape =
      (GoMap.lookup c₂.nServices n).map stService.shape)
    (hcall : ∀ n s₁ s₂, GoMap.lookup c₁.nServices n = some s₁ →
      GoMap.lookup c₂.nServices n = some s₂ → ∀ a post w₁ w₂, R w₁ w₂ →
        R (K₁.call s₁.service a post w₁).2 (K₂.call s₂.service a post w₂).2 ∧
        (post = false → (K₁.call s₁.service a post w₁).1 = (K₂.call s₂.service a post w₂).1))
    (ev : α) (names : List String) (tr : Bool) (w₁ : σ₁) (w₂ : σ₂) (hR : R w₁ w₂) :
    (tierLoop K₁ c₁ ev names tr w₁).1 = (tierLoop K₂ c₂ ev names tr w₂).1 ∧
    R (tierLoop K₁ c₁ ev names tr w₁).2.1 (tierLoop K₂ c₂ ev names tr w₂).2.1 ∧
    List.Forall₂ Invocation.agrees (tierLoop K₁ c₁ ev names tr w₁).2.2
      (tierLoop K₂ c₂ ev names tr w₂).2.2 := by
  induction names generalizing tr w₁ w₂ with
  | nil => exact ⟨rfl, hR, List.Forall₂.nil⟩
  | cons n rest ih =>
    rcases lookup_shape_cases hreg n with ⟨h1, h2⟩ | ⟨s₁, s₂, h1, h2, hn, _, hpn⟩
    · rw [tierLoop_cons_none K₁ c₁ ev n rest tr w₁ h1, tierLoop_cons_none K₂ c₂ ev n rest tr w₂ h2]
      exact ih tr w₁ w₂ hR
    · rw [tierLoop_cons_some K₁ c₁ ev n rest tr w₁ s₁ h1,
        tierLoop_cons_some K₂ c₂ ev n rest tr w₂ s₂ h2]
      obtain ⟨hR1, hres⟩ := hcall n s₁ s₂ h1 h2 ev false w₁ w₂ hR
      have hres := hres rfl
      have hpost : R (postPart K₁ c₁ ev s₁ w₁).1 (postPart K₂ c₂ ev s₂ w₂).1 ∧
          List.Forall₂ Invocation.agrees (postPart K₁ c₁ ev s₁ w₁).2
            (postPart K₂ c₂ ev s₂ w₂).2 := by
        unfold postPart
        rw [← hres, ← hpn]
        by_cases hr : (K₁.call s₁.service ev false w₁).1.1 = ""
        · simp only [ne_eq, hr, not_true_eq_false, if_false]
          exact ⟨hR1, List.Forall₂.nil⟩
        · simp only [ne_eq, hr, not_false_eq_true, if_true]
          exact postLoop_twoRuns K₁ K₂ R hwm hreg hcall ev _ _ _ _ hR1
      rw [← hres]
      have hrec := ih (tr || (K₁.call s₁.service ev false w₁).1.2) _ _ hpost.1
      refine ⟨hrec.1, hrec.2.1, List.Forall₂.cons ⟨?_, ?_⟩ ?_⟩
      · simp [Invocation.observable, hn]
      · intro _; exact ⟨rfl, rfl⟩
      · exact List.rel_append hpost.2 hrec.2.2

theorem priorityLoop_twoRuns (hwm : K₁.withMsg = K₂.withMsg)
    (hidx : ∀ p, tierOf c₁.pServiceNames p = tierOf c₂.pServiceNames p)
    (hreg : ∀ n, (GoMap.lookup c₁.nServices n).map stService.shape =
      (GoMap.lookup c₂.nServices n).map stService.shape)
    (hcall : ∀ n s₁ s₂, GoMap.lookup c₁.nServices n = some s₁ →
      GoMap.lookup c₂.nServices n = some s₂ → ∀ a post w₁ w₂, R w₁ w₂ →
        R (K₁.call s₁.service a post w₁).2 (K₂.call s₂.service a post w₂).2 ∧
        (post = false → (K₁.call s₁.service a post w₁).1 = (K₂.call s₂.service a post w₂).1))
    (ev : α) (ps : List Int) (w₁ : σ₁) (w₂ : σ₂) (hR : R w₁ w₂) :
    R (priorityLoop K₁ c₁ ev ps w₁).1 (priorityLoop K₂ c₂ ev ps w₂).1 ∧
    List.Forall₂ Invocation.agrees (priorityLoop K₁ c₁ ev ps w₁).2
      (priorityLoop K₂ c₂ ev ps w₂).2 := by
  induction ps generalizing w₁ w₂ with
  | nil => exact ⟨hR, List.Forall₂.nil⟩
  | cons p rest ih =>
    have ht := tierLoop_twoRuns K₁ K₂ R hwm hreg hcall ev (tierOf c₂.pServiceNames p) false
      w₁ w₂ hR
    have hx := hidx p
    by_cases hp : p < 0
    · rw [priorityLoop_neg K₁ c₁ ev p rest w₁ hp, priorityLoop_neg K₂ c₂ ev p rest w₂ hp]
      exact ih w₁ w₂ hR
    · by_cases he : tierOf c₂.pServiceNames p = []
      · rw [priorityLoop_empty K₁ c₁ ev p rest w₁ (hx.trans he),
          priorityLoop_empty K₂ c₂ ev p rest w₂ he]
        exact ih w₁ w₂ hR
      · have hp0 : 0 ≤ p := not_lt.mp hp
        have he1 : tierOf c₁.pServiceNames p ≠ [] := fun e => he (hx.symm.trans e)
        cases hv : (tierLoop K₂ c₂ ev (tierOf c₂.pServiceNames p) false w₂).1 with
        | false =>
          have hv1 : (tierLoop K₁ c₁ ev (tierOf c₁.pServiceNames p) false w₁).1 = false := by
            rw [hx, ht.1, hv]
          rw [priorityLoop_closed K₁ c₁ ev p rest w₁ hp0 he1 hv1,
            priorityLoop_closed K₂ c₂ ev p rest w₂ hp0 he hv, hx]
          exact ht.2
        | true =>
          have hv1 : (tierLoop K₁ c₁ ev (tierOf c₁.pServiceNames p) false w₁).1 = true := by
            rw [hx, ht.1, hv]
          rw [priorityLoop_open K₁ c₁ ev p rest w₁ hp0 he1 hv1,
            priorityLoop_open K₂ c₂ ev p rest w₂ hp0 he hv, hx]
          have hrec := ih _ _ ht.2.1
          exact ⟨hrec.1, List.rel_append ht.2.2 hrec.2⟩

theorem keys_perm_of_lookup_eq {c₁ : Controller σ₁} {c₂ : Controller σ₂}
    (h₁ : WellFormed c₁) (h₂ : WellFormed c₂)
    (hidx : ∀ p, GoMap.lookup c₁.pServiceNames p = GoMap.lookup c₂.pServiceNames p) :
    (GoMap.keys c₁.pServiceNames).Perm (GoMap.keys c₂.pServiceNames) := by
  refine (List.perm_ext_iff_of_nodup h₁.keys_nodup h₂.keys_nodup).2 ?_
  intro p
  rw [← GoMap.lookup_isSome_iff, ← GoMap.lookup_isSome_iff, hidx p]

theorem observable_of_agrees {t₁ t₂ : List (Invocation α)}
    (h : List.Forall₂ Invocation.agrees t₁ t₂) :
    t₁.map Invocation.observable = t₂.map Invocation.observable := by
  induction h with
  | nil => rfl
  | cons hab _ ih => simp [hab.1, ih]

end TwoRuns

/-- **C7.** Two reachable controllers have the same priority index and, under
the same names, records with the same name, priority and post-handler names.
Their handler states are related by `R`, every handler call preserves `R`, and
from `R`-related states the handlers of equally named records return the same
(output, propagate) whenever `post = false`; what they return when `post =
true` is unconstrained.  Then `OnGroupMsg` (and `OnPrivateMsg`) makes the same
sequence of handler invocations (name, arguments, post flag) and returns the
same code in both runs, and ends in `R`-related states.  With `R` always true
this is: handlers that agree on all primary invocations, whatever their state. -/
theorem post_results_discarded {σ₁ σ₂ : Type} (R : σ₁ → σ₂ → Prop)
    (c₁ : Controller σ₁) (c₂ : Controller σ₂) (hc₁ : Reachable c₁) (hc₂ : Reachable c₂)
    (hidx : ∀ p, GoMap.lookup c₁.pServiceNames p = GoMap.lookup c₂.pServiceNames p)
    (hreg : ∀ n, (GoMap.lookup c₁.nServices n).map stService.shape =
      (GoMap.lookup c₂.nServices n).map stService.shape)
    (hstate : ∀ n s₁ s₂, GoMap.lookup c₁.nServices n = some s₁ →
      GoMap.lookup c₂.nServices n = some s₂ → ∀ w₁ w₂, R w₁ w₂ →
        (∀ ev post, R (s₁.service.OnGroupMsg ev post w₁).2 (s₂.service.OnGroupMsg ev post w₂).2) ∧
        (∀ ev post,
          R (s₁.service.OnPrivateMsg ev post w₁).2 (s₂.service.OnPrivateMsg ev post w₂).2))
    (hprimary : ∀ n s₁ s₂, GoMap.lookup c₁.nServices n = some s₁ →
      GoMap.lookup c₂.nServices n = some s₂ → ∀ w₁ w₂, R w₁ w₂ →
        (∀ ev, (s₁.service.OnGroupMsg ev false w₁).1 = (s₂.service.OnGroupMsg ev false w₂).1) ∧
        (∀ ev,
          (s₁.service.OnPrivateMsg ev false w₁).1 = (s₂.service.OnPrivateMsg ev false w₂).1))
    (order₁ order₂ : List Int) (ho₁ : order₁.Perm (GoMap.keys c₁.pServiceNames))
    (ho₂ : order₂.Perm (GoMap.keys c₂.pServiceNames))
    (gev : GroupMsg) (pev : PrivateMsg) (w₁ : σ₁) (w₂ : σ₂) (hR : R w₁ w₂) :
    ((OnGroupMsg c₁ order₁ gev w₁).trace.map Invocation.observable =
        (OnGroupMsg c₂ order₂ gev w₂).trace.map Invocation.observable ∧
      (OnGroupMsg c₁ order₁ gev w₁).code = (OnGroupMsg c₂ order₂ gev w₂).code ∧
      R (OnGroupMsg c₁ order₁ gev w₁).world (OnGroupMsg c₂ order₂ gev w₂).world) ∧
    ((OnPrivateMsg c₁ order₁ pev w₁).trace.map Invocation.observable =
        (OnPrivateMsg c₂ order₂ pev w₂).trace.map Invocation.observable ∧
      (OnPrivateMsg c₁ order₁ pev w₁).code = (OnPrivateMsg c₂ order₂ pev w₂).code ∧
      R (OnPrivateMsg c₁ order₁ pev w₁).world (OnPrivateMsg c₂ order₂ pev w₂).world) := by
  have hkeys := keys_perm_of_lookup_eq (wellFormed_of_reachable hc₁)
    (wellFormed_of_reachable hc₂) hidx
  have hsort : sortInts order₁ = sortInts order₂ :=
    sortInts_eq_of_perm ((ho₁.trans hkeys).trans ho₂.symm)
  have htier : ∀ p, tierOf c₁.pServiceNames p = tierOf c₂.pServiceNames p := by
    intro p; simp only [tierOf, hidx p]
  have hg := priorityLoop_twoRuns (groupKind : EventKind σ₁ GroupMsg) groupKind R rfl htier hreg
    (fun n s₁ s₂ h1 h2 a post w₁ w₂ h =>
      ⟨(hstate n s₁ s₂ h1 h2 w₁ w₂ h).1 a post,
        fun hp => by subst hp; exact (hprimary n s₁ s₂ h1 h2 w₁ w₂ h).1 a⟩)
    gev (sortInts order₂) w₁ w₂ hR
  have hp := priorityLoop_twoRuns (privateKind : EventKind σ₁ PrivateMsg) privateKind R rfl
    htier hreg
    (fun n s₁ s₂ h1 h2 a post w₁ w₂ h =>
      ⟨(hstate n s₁ s₂ h1 h2 w₁ w₂ h).2 a post,
        fun hp => by subst hp; exact (hprimary n s₁ s₂ h1 h2 w₁ w₂ h).2 a⟩)
    pev (sortInts order₂) w₁ w₂ hR
  rw [OnGroupMsg_eq, OnGroupMsg_eq, OnPrivateMsg_eq, OnPrivateMsg_eq, hsort]
  exact ⟨⟨observable_of_agrees hg.2, rfl, hg.1⟩, ⟨observable_of_agrees hp.2, rfl, hp.1⟩⟩

theorem ctrlPost_nServices :
    ctrlPost.nServices = [("p", recP), ("q", recQ), ("log", recLog)] := rfl

theorem ctrlPostVar_nServices :
    ctrlPostVar.nServices =
      [("p", recP), ("q", recQ), ("log", (NewService "log" postVarying 5).PostService "p")] :=
  rfl

theorem ctrlPost_lookup_other (n : String) (hp : n ≠ "p") (hq : n ≠ "q") (hl : n ≠ "log") :
    GoMap.lookup ctrlPost.nServices n = none ∧ GoMap.lookup ctrlPostVar.nServices n = none := by
  rw [ctrlPost_nServices, ctrlPostVar_nServices]
  have h1 : ¬ "p" = n := fun e => hp e.symm
  have h2 : ¬ "q" = n := fun e => hq e.symm
  have h3 : ¬ "log" = n := fun e => hl e.symm
  simp only [GoMap.lookup, h1, h2, h3, if_false, and_self]

theorem ctrlPost_cases (n : String) (s₁ s₂ : stService Nat)
    (h1 : GoMap.lookup ctrlPost.nServices n = some s₁)
    (h2 : GoMap.lookup ctrlPostVar.nServices n = some s₂) :
    (s₁ = recP ∧ s₂ = recP) ∨ (s₁ = recQ ∧ s₂ = recQ) ∨
      (s₁ = recLog ∧ s₂ = (NewService "log" postVarying 5).PostService "p") := by
  by_cases hp : n = "p"
  · subst hp
    exact Or.inl ⟨(Option.some.inj h1).symm, (Option.some.inj h2).symm⟩
  · by_cases hq : n = "q"
    · subst hq
      exact Or.inr (Or.inl ⟨(Option.some.inj h1).symm, (Option.some.inj h2).symm⟩)
    · by_cases hl : n = "log"
      · subst hl
        exact Or.inr (Or.inr ⟨(Option.some.inj h1).symm, (Option.some.inj h2).symm⟩)
      · rw [(ctrlPost_lookup_other n hp hq hl).1] at h1
        cases h1

theorem ctrlPost_shape (n : String) :
    (GoMap.lookup ctrlPost.nServices n).map stService.shape =
      (GoMap.lookup ctrlPostVar.nServices n).map stService.shape := by
  by_cases hp : n = "p"
  · subst hp; rfl
  · by_cases hq : n = "q"
    · subst hq; rfl
    · by_cases hl : n = "log"
      · subst hl; rfl
      · rw [(ctrlPost_lookup_other n hp hq hl).1, (ctrlPost_lookup_other n hp hq hl).2]

/-- Witness of C7: `ctrlPost` and `ctrlPostVar` differ only in what `log`
returns as post-handler; the invocation sequences agree. -/
theorem post_results_discarded_witness :
    Reachable ctrlPost ∧ Reachable ctrlPostVar ∧
    (recLog.service.OnGroupMsg sampleGroup true 0).1 ≠
      (postVarying.OnGroupMsg sampleGroup true 0).1 ∧
    [5, 0].Perm (GoMap.keys ctrlPost.pServiceNames) ∧
    [0, 5].Perm (GoMap.keys ctrlPostVar.pServiceNames) ∧
    ((OnGroupMsg ctrlPost [5, 0] sampleGroup 1).trace.map Invocation.observable =
        (OnGroupMsg ctrlPostVar [0, 5] sampleGroup 2).trace.map Invocation.observable ∧
      (OnGroupMsg ctrlPost [5, 0] sampleGroup 1).code =
        (OnGroupMsg ctrlPostVar [0, 5] sampleGroup 2).code ∧ True) ∧
    ((OnPrivateMsg ctrlPost [5, 0] samplePrivate 1).trace.map Invocation.observable =
        (OnPrivateMsg ctrlPostVar [0, 5] samplePrivate 2).trace.map Invocation.observable ∧
      (OnPrivateMsg ctrlPost [5, 0] samplePrivate 1).code =
        (OnPrivateMsg ctrlPostVar [0, 5] samplePrivate 2).code ∧ True) :=
  ⟨reachable_registerAll Reachable.new _ _, reachable_registerAll Reachable.new _ _,
    by decide, by decide, by decide,
    post_results_discarded (fun _ _ => True) ctrlPost ctrlPostVar
      (reachable_registerAll Reachable.new _ _) (reachable_registerAll Reachable.new _ _)
      (fun _ => rfl) ctrlPost_shape
      (fun _ _ _ _ _ _ _ _ => ⟨fun _ _ => trivial, fun _ _ => trivial⟩)
      (fun n s₁ s₂ h1 h2 w₁ w₂ _ => by
        rcases ctrlPost_cases n s₁ s₂ h1 h2 with ⟨rfl, rfl⟩ | ⟨rfl, rfl⟩ | ⟨rfl, rfl⟩
        · exact ⟨fun _ => rfl, fun _ => rfl⟩
        · exact ⟨fun _ => rfl, fun _ => rfl⟩
        · exact ⟨fun _ => rfl, fun _ => rfl⟩)
      [5, 0] [0, 5] (by decide) (by decide) sampleGroup samplePrivate 1 2 trivial⟩

/-! ## The order of primary invocations -/

theorem history_new : History [] (NewController : Controller σ) where
  wf := wellFormed_new
  names := by intro n; simp [NewController, GoMap.keys]
  tiers := by intro p; simp [NewController, tierOf, GoMap.lookup]

theorem regIndex_append_of_mem (rs : List (stService σ)) (r : stService σ) {n : String}
    (h : n ∈ rs.map (fun s => s.name)) : regIndex (rs ++ [r]) n = regIndex rs n := by
  simp only [regIndex, List.map_append]
  exact List.indexOf_append_of_mem h

theorem history_register {rs : List (stService σ)} {c : Controller σ} (h : History rs c)
    (r : stService σ) (w : σ) : History (rs ++ [r]) (RegisterService c r w).ctrl := by
  have hmem : ∀ p a, a ∈ tierOf c.pServiceNames p → a ∈ rs.map (fun s => s.name) := by
    intro p a ha
    obtain ⟨s, hs, _⟩ := h.wf.tier_sound p a ha
    exact (h.names a).1 (GoMap.mem_keys_of_lookup hs)
  have hold : ∀ p, (tierOf c.pServiceNames p).Pairwise
      (fun a b => regIndex (rs ++ [r]) a < regIndex (rs ++ [r]) b) := by
    intro p
    refine (h.tiers p).imp_of_mem ?_
    intro a b ha hb hab
    rw [regIndex_append_of_mem rs r (hmem p a ha), regIndex_append_of_mem rs r (hmem p b hb)]
    exact hab
  refine ⟨wellFormed_register c r w h.wf, ?_, ?_⟩
  · intro n
    unfold RegisterService
    cases hl : GoMap.lookup c.nServices r.name with
    | some s =>
      have hr : r.name ∈ rs.map (fun s => s.name) :=
        (h.names r.name).1 (GoMap.mem_keys_of_lookup hl)
      simp only [List.map_append, List.map_cons, List.map_nil, List.mem_append,
        List.mem_singleton]
      rw [h.names n]
      constructor
      · exact Or.inl
      · rintro (h' | rfl)
        · exact h'
        · exact hr
    | none =>
      simp only [GoMap.mem_keys_store, List.map_append, List.map_cons, List.map_nil,
        List.mem_append, List.mem_singleton]
      rw [h.names n]
  · intro p
    unfold RegisterService
    cases hl : GoMap.lookup c.nServices r.name with
    | some s => exact hold p
    | none =>
      have hnot : r.name ∉ rs.map (fun s => s.name) := by
        rw [← h.names r.name]
        exact (GoMap.lookup_eq_none_iff _ _).1 hl
      by_cases hp : p = r.priority
      · subst hp
        simp only [tierOf_store_self]
        refine List.pairwise_append.2 ⟨hold _, List.pairwise_singleton _ _, ?_⟩
        intro a ha b hb
        rw [List.mem_singleton.1 hb, regIndex_append_of_mem rs r (hmem _ a ha)]
        have h1 : regIndex rs a < (rs.map (fun s => s.name)).length :=
          List.indexOf_lt_length.2 (hmem _ a ha)
        have h2 : regIndex (rs ++ [r]) r.name = (rs.map (fun s => s.name)).length := by
          simp only [regIndex, List.map_append, List.map_cons, List.map_nil]
          rw [List.indexOf_append_of_not_mem hnot]
          simp
        omega
      · simp only [tierOf_store_ne _ _ hp]
        exact hold p

theorem history_registerAll {rs₀ : List (stService σ)} {c : Controller σ} (h : History rs₀ c)
    (rs : List (stService σ)) (w : σ) : History (rs₀ ++ rs) (registerAll c rs w).1 := by
  induction rs generalizing rs₀ c w with
  | nil => simpa [registerAll] using h
  | cons r rest ih =>
    have := ih (history_register h r w) (RegisterService c r w).world
    simpa [registerAll] using this

theorem tier_primaries_pairwise (K : EventKind σ α) {c : Controller σ} (hc : WellFormed c)
    (B : String → String → Prop) (hB : ∀ p, (tierOf c.pServiceNames p).Pairwise B) (ev : α)
    (p : Int) (tr : Bool) (w : σ) :
    (primaries (tierLoop K c ev (tierOf c.pServiceNames p) tr w).2.2).Pairwise
      (fun a b => B a.name b.name) := by
  have h := tierLoop_primaries_names K hc.name_key ev (tierOf c.pServiceNames p) tr w
  have hp : ((primaries (tierLoop K c ev (tierOf c.pServiceNames p) tr w).2.2).map
      (fun x => x.name)).Pairwise B := by
    rw [h]
    exact (hB p).sublist (List.filter_sublist _)
  exact List.pairwise_map.1 hp

theorem primaries_pairwise_generic (K : EventKind σ α) {c : Controller σ} (hc : WellFormed c)
    (B : String → String → Prop) (hB : ∀ p, (tierOf c.pServiceNames p).Pairwise B) (ev : α)
    (ps : List Int) (hps : ps.Pairwise (· < ·)) (w : σ) :
    (primaries (priorityLoop K c ev ps w).2).Pairwise
      (fun a b => ∃ pa pb, IsPrimaryOfTier c pa a ∧ IsPrimaryOfTier c pb b ∧
        (pa < pb ∨ (pa = pb ∧ B a.name b.name))) := by
  induction ps generalizing w with
  | nil => simp [priorityLoop, primaries]
  | cons p0 rest ih =>
    have hrest : rest.Pairwise (· < ·) := (List.pairwise_cons.1 hps).2
    have hlt : ∀ x ∈ rest, p0 < x := (List.pairwise_cons.1 hps).1
    have htier : (primaries (tierLoop K c ev (tierOf c.pServiceNames p0) false w).2.2).Pairwise
        (fun a b => ∃ pa pb, IsPrimaryOfTier c pa a ∧ IsPrimaryOfTier c pb b ∧
          (pa < pb ∨ (pa = pb ∧ B a.name b.name))) := by
      refine (tier_primaries_pairwise K hc B hB ev p0 false w).imp_of_mem ?_
      intro a b ha hb hab
      exact ⟨p0, p0,
        tier_primary K hc ev p0 false w a (mem_primaries.1 ha).1 (mem_primaries.1 ha).2,
        tier_primary K hc ev p0 false w b (mem_primaries.1 hb).1 (mem_primaries.1 hb).2,
        Or.inr ⟨rfl, hab⟩⟩
    rcases priorityLoop_cases K c ev p0 rest w with ⟨_, h⟩ | ⟨_, _, _, h⟩ | ⟨_, _, _, h⟩
    · rw [h]; exact ih hrest w
    · rw [h]; exact htier
    · rw [h, primaries_append]
      refine List.pairwise_append.2 ⟨htier, ih hrest _, ?_⟩
      intro a ha b hb
      have h1 := tier_primary K hc ev p0 false w a (mem_primaries.1 ha).1 (mem_primaries.1 ha).2
      obtain ⟨q, hq, _, hm⟩ := priorityLoop_primary K hc ev rest _ b (mem_primaries.1 hb).1
        (mem_primaries.1 hb).2
      exact ⟨p0, q, h1, ⟨(mem_primaries.1 hb).2, priorityOf_of_mem_tier hc hm⟩,
        Or.inl (hlt q hq)⟩

theorem dispatchedBefore_of {c : Controller σ} {rs : List (stService σ)} {a b : Invocation α}
    (h : ∃ pa pb, IsPrimaryOfTier c pa a ∧ IsPrimaryOfTier c pb b ∧
      (pa < pb ∨ (pa = pb ∧ regIndex rs a.name < regIndex rs b.name))) :
    DispatchedBefore c rs a b := by
  obtain ⟨pa, pb, ha, hb, hab⟩ := h
  simp only [DispatchedBefore, ha.2, hb.2]
  exact hab

/-- **C10.** On the controller produced from `NewController` by offering the
records `rs` to `RegisterService` in order (every reachable controller is one,
`reachable_iff_registerAll`), in `OnGroupMsg` and in `OnPrivateMsg`: the
invocations with `post = false` occur in ascending order of
priority and, within one priority, in the order in which their records were
registered; and the whole dispatch is the same for every order in which the keys
of the priority index are enumerated. -/
theorem primary_invocation_order (rs : List (stService σ)) (w₀ : σ) (c : Controller σ)
    (hc : c = (registerAll NewController rs w₀).1) (order order' : List Int)
    (ho : order.Perm (GoMap.keys c.pServiceNames))
    (ho' : order'.Perm (GoMap.keys c.pServiceNames))
    (gev : GroupMsg) (pev : PrivateMsg) (w : σ) :
    (primaries (OnGroupMsg c order gev w).trace).Pairwise (DispatchedBefore c rs) ∧
    OnGroupMsg c order gev w = OnGroupMsg c order' gev w ∧
    (primaries (OnPrivateMsg c order pev w).trace).Pairwise (DispatchedBefore c rs) ∧
    OnPrivateMsg c order pev w = OnPrivateMsg c order' pev w := by
  have hh : History rs c := by
    rw [hc]
    simpa using history_registerAll history_new rs w₀
  have hs := sortInts_keys hh.wf ho
  have hsort : sortInts order = sortInts order' := sortInts_eq_of_perm (ho.trans ho'.symm)
  refine ⟨?_, ?_, ?_, ?_⟩
  · rw [OnGroupMsg_trace]
    exact (primaries_pairwise_generic groupKind hh.wf _ hh.tiers gev _ hs w).imp
      dispatchedBefore_of
  · rw [OnGroupMsg_eq, OnGroupMsg_eq, hsort]
  · rw [OnPrivateMsg_trace]
    exact (primaries_pairwise_generic privateKind hh.wf _ hh.tiers pev _ hs w).imp
      dispatchedBefore_of
  · rw [OnPrivateMsg_eq, OnPrivateMsg_eq, hsort]

theorem registerService_ctrl_world (c : Controller σ) (r : stService σ) (w w' : σ) :
    (RegisterService c r w).ctrl = (RegisterService c r w').ctrl := by
  unfold RegisterService
  cases GoMap.lookup c.nServices r.name <;> rfl

theorem registerAll_snoc (c : Controller σ) (rs : List (stService σ)) (r : stService σ)
    (w w' : σ) :
    (registerAll c (rs ++ [r]) w).1 = (RegisterService (registerAll c rs w).1 r w').ctrl := by
  induction rs generalizing c w with
  | nil => simp only [List.nil_append, registerAll]; exact registerService_ctrl_world c r w w'
  | cons s rest ih => simp only [List.cons_append, registerAll]; exact ih _ _

/-- Every reachable controller is the outcome of offering some list of records,
in order, to `RegisterService`, starting from `NewController`. -/
theorem reachable_iff_registerAll (c : Controller σ) (w : σ) :
    Reachable c ↔ ∃ rs, c = (registerAll NewController rs w).1 := by
  constructor
  · intro h
    induction h with
    | new => exact ⟨[], rfl⟩
    | register c r w' _ ih =>
      obtain ⟨rs, hrs⟩ := ih
      exact ⟨rs ++ [r], by rw [registerAll_snoc NewController rs r w w', ← hrs]⟩
  · rintro ⟨rs, rfl⟩
    exact reachable_registerAll Reachable.new rs w

/-- Witness of C10: of the records `hi` (priority 1), `A`, `B` (priority 0)
offered in this order, the primary invocations are `A`, `B`, `hi`. -/
theorem primary_invocation_order_witness :
    ctrlAB = (registerAll NewController recordsAB 0).1 ∧
    [1, 0].Perm (GoMap.keys ctrlAB.pServiceNames) ∧
    [0, 1].Perm (GoMap.keys ctrlAB.pServiceNames) ∧
    (primaries (OnGroupMsg ctrlAB [1, 0] sampleGroup 5).trace).map (fun e => e.name) =
      ["A", "B", "hi"] ∧
    ((primaries (OnGroupMsg ctrlAB [1, 0] sampleGroup 5).trace).Pairwise
        (DispatchedBefore ctrlAB recordsAB) ∧
      OnGroupMsg ctrlAB [1, 0] sampleGroup 5 = OnGroupMsg ctrlAB [0, 1] sampleGroup 5 ∧
      (primaries (OnPrivateMsg ctrlAB [1, 0] samplePrivate 5).trace).Pairwise
        (DispatchedBefore ctrlAB recordsAB) ∧
      OnPrivateMsg ctrlAB [1, 0] samplePrivate 5 = OnPrivateMsg ctrlAB [0, 1] samplePrivate 5) :=
  ⟨rfl, by decide, by decide, by decide,
    primary_invocation_order recordsAB 0 ctrlAB rfl [1, 0] [0, 1] (by decide) (by decide)
      sampleGroup samplePrivate 5⟩

/-! ## The status code -/

theorem priorityLoop_no_tiers (K : EventKind σ α) (c : Controller σ)
    (h : ∀ p, tierOf c.pServiceNames p = []) (ev : α) (ps : List Int) (w : σ) :
    priorityLoop K c ev ps w = (w, []) := by
  induction ps with
  | nil => rfl
  | cons p rest ih => rw [priorityLoop_empty K c ev p rest w (h p), ih]

/-- **C11.** `OnGroupMsg` and `OnPrivateMsg` return the code 0 for every
controller, every enumeration order, every event and every handler state; on the
controller returned by `NewController` they return 0, invoke no handler and
leave the handler state as it was. -/
theorem fixed_status_code (c : Controller σ) (order : List Int) (gev : GroupMsg)
    (pev : PrivateMsg) (w : σ) :
    (OnGroupMsg c order gev w).code = 0 ∧
    (OnPrivateMsg c order pev w).code = 0 ∧
    (OnGroupMsg (NewController : Controller σ) order gev w).code = 0 ∧
    (OnGroupMsg (NewController : Controller σ) order gev w).trace = [] ∧
    (OnGroupMsg (NewController : Controller σ) order gev w).world = w ∧
    (OnPrivateMsg (NewController : Controller σ) order pev w).code = 0 ∧
    (OnPrivateMsg (NewController : Controller σ) order pev w).trace = [] ∧
    (OnPrivateMsg (NewController : Controller σ) order pev w).world = w := by
  have hnew : ∀ p, tierOf (NewController : Controller σ).pServiceNames p = [] := fun _ => rfl
  refine ⟨rfl, rfl, rfl, ?_, ?_, rfl, ?_, ?_⟩
  · rw [OnGroupMsg_eq, priorityLoop_no_tiers groupKind _ hnew]
  · rw [OnGroupMsg_eq, priorityLoop_no_tiers groupKind _ hnew]
  · rw [OnPrivateMsg_eq, priorityLoop_no_tiers privateKind _ hnew]
  · rw [OnPrivateMsg_eq, priorityLoop_no_tiers privateKind _ hnew]

/-! ## Building a record -/

/-- **C12.** `NewService name handler priority` is the record with these three
fields and no post-handler names.  `s.PostService n` is the record `s` with `n`
appended to its post-handler names and its name, handler and priority as they
were; so two chained calls append the two names in order, duplicates kept. -/
theorem record_builder (name : String) (handler : ISTService σ) (priority : Int)
    (s : stService σ) (n a b : String) :
    (NewService name handler priority).name = name ∧
    (NewService name handler priority).service = handler ∧
    (NewService name handler priority).priority = priority ∧
    (NewService name handler priority).postServiceNames = [] ∧
    (s.PostService n).postServiceNames = s.postServiceNames ++ [n] ∧
    (s.PostService n).name = s.name ∧
    (s.PostService n).service = s.service ∧
    (s.PostService n).priority = s.priority ∧
    ((s.PostService a).PostService b).postServiceNames = s.postServiceNames ++ [a, b] ∧
    ((s.PostService a).PostService a).postServiceNames = s.postServiceNames ++ [a, a] ∧
    ((s.PostService a).PostService b).name = s.name ∧
    ((s.PostService a).PostService b).service = s.service ∧
    ((s.PostService a).PostService b).priority = s.priority := by
  refine ⟨rfl, rfl, rfl, rfl, rfl, rfl, rfl, rfl, ?_, ?_, rfl, rfl, rfl⟩
  · simp [stService.PostService]
  · simp [stService.PostService]

/-! ## The priority index lists every record once -/

theorem indexExact_new : IndexExact (NewController : Controller σ) where
  complete := by intro n s h; simp [NewController, GoMap.lookup] at h
  tier_nodup := by intro p; simp [NewController, tierOf, GoMap.lookup]
  tier_nonempty := by intro p h; simp [NewController, GoMap.keys] at h

theorem indexExact_register (c : Controller σ) (r : stService σ) (w : σ)
    (hw : WellFormed c) (h : IndexExact c) : IndexExact (RegisterService c r w).ctrl := by
  unfold RegisterService
  cases hl : GoMap.lookup c.nServices r.name with
  | some s => exact h
  | none =>
    have hfresh : ∀ p, r.name ∉ tierOf c.pServiceNames p := by
      intro p hm
      obtain ⟨s, hs, _⟩ := hw.tier_sound p r.name hm
      rw [hl] at hs
      cases hs
    refine ⟨?_, ?_, ?_⟩
    · intro n s hn
      simp only [GoMap.lookup_store] at hn
      by_cases hk : n = r.name
      · simp only [hk, if_true, Option.some.injEq] at hn
        subst hn
        rw [hk]
        simp only [tierOf_store_self]
        simp
      · simp only [hk, if_false] at hn
        have hm := h.complete n s hn
        by_cases hp : s.priority = r.priority
        · rw [hp] at hm ⊢
          simp only [tierOf_store_self]
          exact List.mem_append_left _ hm
        · simp only [tierOf_store_ne _ _ hp]
          exact hm
    · intro p
      by_cases hp : p = r.priority
      · subst hp
        simp only [tierOf_store_self]
        exact List.Nodup.append (h.tier_nodup _) (List.nodup_singleton _)
          (by
            intro a ha hb
            rw [List.mem_singleton.1 hb] at ha
            exact hfresh _ ha)
      · simp only [tierOf_store_ne _ _ hp]
        exact h.tier_nodup p
    · intro p hp
      by_cases hpr : p = r.priority
      · subst hpr
        simp only [tierOf_store_self]
        simp
      · simp only [tierOf_store_ne _ _ hpr]
        have hk := (GoMap.mem_keys_store _ _ _ _).1 hp
        rcases hk with hk | hk
        · exact h.tier_nonempty p hk
        · exact absurd hk hpr

theorem indexExact_of_reachable {c : Controller σ} (h : Reachable c) : IndexExact c := by
  induction h with
  | new => exact indexExact_new
  | register c r w hc ih => exact indexExact_register c r w (wellFormed_of_reachable hc) ih

theorem primaries_names_nodup (K : EventKind σ α) {c : Controller σ} (hc : WellFormed c)
    (hx : IndexExact c) (ev : α) (ps : List Int) (hps : ps.Pairwise (· < ·)) (w : σ) :
    ((primaries (priorityLoop K c ev ps w).2).map (fun e => e.name)).Nodup := by
  have h := primaries_pairwise_generic K hc (fun a b => a ≠ b) hx.tier_nodup ev ps hps w
  refine List.pairwise_map.2 (h.imp ?_)
  rintro a b ⟨pa, pb, ha, hb, hab⟩ hname
  rcases hab with hlt | ⟨_, hne⟩
  · have h1 := ha.2
    rw [hname, hb.2] at h1
    have := Option.some.inj h1
    omega
  · exact hne hname

/-! ## No short-circuit inside a tier -/

theorem processed_all_generic (K : EventKind σ α) {c : Controller σ} (hc : WellFormed c)
    (ev : α) (ps : List Int) (w : σ) (p : Int)
    (hproc : ∃ e ∈ (priorityLoop K c ev ps w).2, IsPrimaryOfTier c p e) :
    ∀ n ∈ tierOf c.pServiceNames p,
      ∃ e ∈ (priorityLoop K c ev ps w).2, e.post = false ∧ e.name = n := by
  induction ps generalizing w with
  | nil =>
    obtain ⟨e, he, _⟩ := hproc
    simp [priorityLoop] at he
  | cons p0 rest ih =>
    intro n hn
    rcases priorityLoop_cases K c ev p0 rest w with ⟨_, h⟩ | ⟨_, _, _, h⟩ | ⟨_, _, _, h⟩
    · rw [h] at hproc ⊢
      exact ih w hproc n hn
    · rw [h] at hproc ⊢
      obtain ⟨e, he, hpe⟩ := hproc
      have hpp := (tier_primary K hc ev p0 false w e he hpe.1).unique hpe
      subst hpp
      exact tier_all_invoked K hc ev p0 false w n hn
    · rw [h] at hproc ⊢
      obtain ⟨e, he, hpe⟩ := hproc
      rcases List.mem_append.1 he with hm | hm
      · have hpp := (tier_primary K hc ev p0 false w e hm hpe.1).unique hpe
        subst hpp
        obtain ⟨e', he', hp'⟩ := tier_all_invoked K hc ev p0 false w n hn
        exact ⟨e', List.mem_append_left _ he', hp'⟩
      · obtain ⟨e', he', hp'⟩ := ih _ ⟨e, hm, hpe⟩ n hn
        exact ⟨e', List.mem_append_right _ he', hp'⟩

theorem processed_once_generic (K : EventKind σ α) {c : Controller σ} (hc : WellFormed c)
    (hx : IndexExact c) (ev : α) (ps : List Int) (hps : ps.Pairwise (· < ·)) (w : σ) (p : Int)
    (hproc : ∃ e ∈ (priorityLoop K c ev ps w).2, IsPrimaryOfTier c p e) :
    ∀ n ∈ tierOf c.pServiceNames p,
      ((primaries (priorityLoop K c ev ps w).2).map (fun e => e.name)).count n = 1 := by
  intro n hn
  obtain ⟨e, he, hp, hname⟩ := processed_all_generic K hc ev ps w p hproc n hn
  refine List.count_eq_one_of_mem (primaries_names_nodup K hc hx ev ps hps w) ?_
  exact List.mem_map.2 ⟨e, mem_primaries.2 ⟨he, hp⟩, hname⟩

/-- **C13.** On a reachable controller, in `OnGroupMsg` and in `OnPrivateMsg`:
once a tier `p >= 0` is being processed (one of its handlers has a primary
invocation), every handler registered in tier `p` has exactly one invocation
with `post = false` in that dispatch, whatever the handlers return. -/
theorem no_short_circuit_in_tier (c : Controller σ) (hc : Reachable c) (order : List Int)
    (ho : order.Perm (GoMap.keys c.pServiceNames)) (gev : GroupMsg) (pev : PrivateMsg)
    (w : σ) (p : Int) (_hp : 0 ≤ p) :
    ((∃ e ∈ (OnGroupMsg c order gev w).trace, IsPrimaryOfTier c p e) →
      ∀ n ∈ tierOf c.pServiceNames p,
        ((primaries (OnGroupMsg c order gev w).trace).map (fun e => e.name)).count n = 1) ∧
    ((∃ e ∈ (OnPrivateMsg c order pev w).trace, IsPrimaryOfTier c p e) →
      ∀ n ∈ tierOf c.pServiceNames p,
        ((primaries (OnPrivateMsg c order pev w).trace).map (fun e => e.name)).count n = 1) := by
  have hw := wellFormed_of_reachable hc
  have hx := indexExact_of_reachable hc
  have hs := sortInts_keys hw ho
  rw [OnGroupMsg_trace, OnPrivateMsg_trace]
  exact ⟨processed_once_generic groupKind hw hx gev _ hs w p,
    processed_once_generic privateKind hw hx pev _ hs w p⟩

/-- Witness of C13 on `ctrlTwo`: `first` votes `true` and replies, `second` votes
`false`; both handlers of tier 0 have exactly one primary invocation. -/
theorem no_short_circuit_in_tier_witness :
    Reachable ctrlTwo ∧ [1, 0].Perm (GoMap.keys ctrlTwo.pServiceNames) ∧ (0 : Int) ≤ 0 ∧
    tierOf ctrlTwo.pServiceNames 0 = ["first", "second"] ∧
    ((∃ e ∈ (OnGroupMsg ctrlTwo [1, 0] sampleGroup 5).trace, IsPrimaryOfTier ctrlTwo 0 e) ∧
      ∀ n ∈ tierOf ctrlTwo.pServiceNames 0,
        ((primaries (OnGroupMsg ctrlTwo [1, 0] sampleGroup 5).trace).map
          (fun e => e.name)).count n = 1) ∧
    ((∃ e ∈ (OnPrivateMsg ctrlTwo [1, 0] samplePrivate 5).trace,
        IsPrimaryOfTier ctrlTwo 0 e) ∧
      ∀ n ∈ tierOf ctrlTwo.pServiceNames 0,
        ((primaries (OnPrivateMsg ctrlTwo [1, 0] samplePrivate 5).trace).map
          (fun e => e.name)).count n = 1) :=
  have h := no_short_circuit_in_tier ctrlTwo (reachable_registerAll Reachable.new _ _)
    [1, 0] (by decide) sampleGroup samplePrivate 5 0 (by decide)
  ⟨reachable_registerAll Reachable.new _ _, by decide, by decide, by decide,
    ⟨by decide, h.1 (by decide)⟩, ⟨by decide, h.2 (by decide)⟩⟩

/-! ## Post invocations cause nothing further -/

theorem BlockTrace.post_count {K : EventKind σ α} {c : Controller σ} {ev : α}
    {t : List (Invocation α)} (h : BlockTrace K c ev t) :
    (t.filter (fun e => e.post)).length = ((primaries t).map (postCount c)).sum := by
  induction h with
  | nil => rfl
  | block g posts rest s h1 _ h3 h4 h5 _ ih =>
    have hposts : posts.filter (fun e => e.post) = posts :=
      List.filter_eq_self.2 (fun a ha => (h4 a ha).1)
    have hprim : primaries (g :: (posts ++ rest)) = g :: primaries rest := by
      rw [primaries_cons_primary g _ h1, primaries_append,
        primaries_of_post (fun x hx => (h4 x hx).1), List.nil_append]
    have hlen : posts.length = postCount c g := by
      have := congrArg List.length h5
      rw [List.length_map] at this
      rw [this]
      unfold postCount
      by_cases hr : g.reply = ""
      · simp [hr]
      · simp [hr, h3]
    rw [hprim, List.map_cons, List.sum_cons, ← ih, ← hlen]
    simp [List.filter_cons, h1, List.filter_append, hposts]

theorem length_eq_primaries_add_posts (t : List (Invocation α)) :
    t.length = (primaries t).length + (t.filter (fun e => e.post)).length := by
  induction t with
  | nil => rfl
  | cons e rest ih =>
    cases hp : e.post <;> simp [primaries, List.filter_cons, hp] at ih ⊢ <;> omega

/-- **C14.** On a reachable controller, in `OnGroupMsg` and in `OnPrivateMsg`
(total functions: the dispatch ends once the handlers have returned): the
number of invocations with `post = true` is the sum, over the primary
invocations, of the number of registered post-handler names of the record when
its reply is not empty and of 0 otherwise; so no invocation is caused by a post
invocation, whatever it returns and whatever names its own record carries, and
the trace has as many entries as there are primary invocations plus that sum. -/
theorem chain_depth_one (c : Controller σ) (hc : Reachable c) (order : List Int)
    (gev : GroupMsg) (pev : PrivateMsg) (w : σ) :
    ((OnGroupMsg c order gev w).trace.filter (fun e => e.post)).length =
      ((primaries (OnGroupMsg c order gev w).trace).map (postCount c)).sum ∧
    (OnGroupMsg c order gev w).trace.length =
      (primaries (OnGroupMsg c order gev w).trace).length +
        ((primaries (OnGroupMsg c order gev w).trace).map (postCount c)).sum ∧
    ((OnPrivateMsg c order pev w).trace.filter (fun e => e.post)).length =
      ((primaries (OnPrivateMsg c order pev w).trace).map (postCount c)).sum ∧
    (OnPrivateMsg c order pev w).trace.length =
      (primaries (OnPrivateMsg c order pev w).trace).length +
        ((primaries (OnPrivateMsg c order pev w).trace).map (postCount c)).sum := by
  have hw := wellFormed_of_reachable hc
  rw [OnGroupMsg_trace, OnPrivateMsg_trace]
  have hg := (priorityLoop_blocks groupKind hw.name_key gev (sortInts order) w).post_count
  have hp := (priorityLoop_blocks privateKind hw.name_key pev (sortInts order) w).post_count
  refine ⟨hg, ?_, hp, ?_⟩
  · rw [← hg]; exact length_eq_primaries_add_posts _
  · rw [← hp]; exact length_eq_primaries_add_posts _

/-- Witness of C14 on `ctrlCycle`: `echo` names itself, `a` and `b` name each
other, every reply is non-empty; three primary and three post invocations. -/
theorem chain_depth_one_witness :
    Reachable ctrlCycle ∧
    (primaries (OnGroupMsg ctrlCycle [1, 0] sampleGroup 5).trace).length = 3 ∧
    (OnGroupMsg ctrlCycle [1, 0] sampleGroup 5).trace.map (fun e => (e.name, e.post)) =
      [("echo", false), ("echo", true), ("a", false), ("b", true), ("b", false),
       ("a", true)] ∧
    ((primaries (OnGroupMsg ctrlCycle [1, 0] sampleGroup 5).trace).map
      (postCount ctrlCycle)).sum = 3 ∧
    (((OnGroupMsg ctrlCycle [1, 0] sampleGroup 5).trace.filter (fun e => e.post)).length =
        ((primaries (OnGroupMsg ctrlCycle [1, 0] sampleGroup 5).trace).map
          (postCount ctrlCycle)).sum ∧
      (OnGroupMsg ctrlCycle [1, 0] sampleGroup 5).trace.length =
        (primaries (OnGroupMsg ctrlCycle [1, 0] sampleGroup 5).trace).length +
          ((primaries (OnGroupMsg ctrlCycle [1, 0] sampleGroup 5).trace).map
            (postCount ctrlCycle)).sum ∧
      ((OnPrivateMsg ctrlCycle [1, 0] samplePrivate 5).trace.filter (fun e => e.post)).length =
        ((primaries (OnPrivateMsg ctrlCycle [1, 0] samplePrivate 5).trace).map
          (postCount ctrlCycle)).sum ∧
      (OnPrivateMsg ctrlCycle [1, 0] samplePrivate 5).trace.length =
        (primaries (OnPrivateMsg ctrlCycle [1, 0] samplePrivate 5).trace).length +
          ((primaries (OnPrivateMsg ctrlCycle [1, 0] samplePrivate 5).trace).map
            (postCount ctrlCycle)).sum) :=
  ⟨reachable_registerAll Reachable.new _ _, by decide, by decide, by decide,
    chain_depth_one ctrlCycle (reachable_registerAll Reachable.new _ _) [1, 0] sampleGroup
      samplePrivate 5⟩

/-! ## Sequences of registrations and dispatches -/

theorem reachable_apply {c : Controller σ} (h : Reachable c) (op : Op σ) (w : σ) :
    Reachable (op.apply c w).1 := by
  cases op with
  | register r => exact Reachable.register c r w h
  | groupMsg order ev => exact h
  | privateMsg order ev => exact h

theorem reachable_runOps {c : Controller σ} (h : Reachable c) (ops : List (Op σ)) (w : σ) :
    Reachable (runOps c w ops).1 := by
  induction ops generalizing c w with
  | nil => exact h
  | cons op rest ih => exact ih (reachable_apply h op w) _

/-- **C15.** In every controller state reached from `NewController` by a
sequence of `RegisterService` calls (accepted or rejected) and dispatches, every
name listed in the priority index under tier `p` is a key of the registry, and
the record it maps to has that name and the priority `p`. -/
theorem registry_index_consistent (ops : List (Op σ)) (w₀ : σ) (p : Int) (n : String)
    (h : n ∈ tierOf (runOps NewController w₀ ops).1.pServiceNames p) :
    n ∈ GoMap.keys (runOps NewController w₀ ops).1.nServices ∧
    ∃ s, GoMap.lookup (runOps NewController w₀ ops).1.nServices n = some s ∧
      s.name = n ∧ s.priority = p := by
  have hw := wellFormed_of_reachable (reachable_runOps Reachable.new ops w₀)
  obtain ⟨s, hs, hp⟩ := hw.tier_sound p n h
  exact ⟨GoMap.mem_keys_of_lookup hs, s, hs, hw.name_key n s hs, hp⟩

/-- Witness of C15: after `sampleOps`, `B` is listed under tier 1. -/
theorem registry_index_consistent_witness :
    "B" ∈ tierOf (runOps NewController 0 sampleOps).1.pServiceNames 1 ∧
    "B" ∈ GoMap.keys (runOps NewController 0 sampleOps).1.nServices ∧
    ∃ s, GoMap.lookup (runOps NewController 0 sampleOps).1.nServices "B" = some s ∧
      s.name = "B" ∧ s.priority = 1 :=
  ⟨by decide, registry_index_consistent sampleOps 0 1 "B" (by decide)⟩

/-! ## Registered records stay as they are -/

theorem lookup_register_stable (c : Controller σ) (r : stService σ) (w : σ) (n : String)
    (s : stService σ) (h : GoMap.lookup c.nServices n = some s) :
    GoMap.lookup (RegisterService c r w).ctrl.nServices n = some s := by
  unfold RegisterService
  cases hl : GoMap.lookup c.nServices r.name with
  | some s' => exact h
  | none =>
    have hne : n ≠ r.name := by
      intro e
      rw [e, hl] at h
      cases h
    simp only [GoMap.lookup_store, hne, if_false]
    exact h

theorem lookup_apply_stable (op : Op σ) (c : Controller σ) (w : σ) (n : String)
    (s : stService σ) (h : GoMap.lookup c.nServices n = some s) :
    GoMap.lookup (op.apply c w).1.nServices n = some s := by
  cases op with
  | register r => exact lookup_register_stable c r w n s h
  | groupMsg order ev => exact h
  | privateMsg order ev => exact h

theorem lookup_runOps_stable (ops : List (Op σ)) (c : Controller σ) (w : σ) (n : String)
    (s : stService σ) (h : GoMap.lookup c.nServices n = some s) :
    GoMap.lookup (runOps c w ops).1.nServices n = some s := by
  induction ops generalizing c w with
  | nil => exact h
  | cons op rest ih => exact ih _ _ (lookup_apply_stable op c w n s h)

/-! ## Group and private dispatch have the same shape -/

section SameShape

variable {α₁ α₂ : Type} (K₁ : EventKind σ α₁) (K₂ : EventKind σ α₂) (f : α₁ → α₂)
  {c : Controller σ}

theorem postLoop_mapArgs (hf : ∀ a s, f (K₁.withMsg a s) = K₂.withMsg (f a) s)
    (hcall : ∀ n s, GoMap.lookup c.nServices n = some s → ∀ a post w,
      K₁.call s.service a post w = K₂.call s.service (f a) post w)
    (ev : α₁) (reply : String) (names : List String) (w : σ) :
    postLoop K₂ c (f ev) reply names w =
      ((postLoop K₁ c ev reply names w).1,
       (postLoop K₁ c ev reply names w).2.map (Invocation.mapArgs f)) := by
  induction names generalizing w with
  | nil => rfl
  | cons n rest ih =>
    cases hl : GoMap.lookup c.nServices n with
    | none => simp only [postLoop, hl]; exact ih w
    | some s =>
      simp only [postLoop, hl, ← hf, ← hcall n s hl, ih, List.map_cons, Invocation.mapArgs]

theorem postPart_mapArgs (hf : ∀ a s, f (K₁.withMsg a s) = K₂.withMsg (f a) s)
    (hcall : ∀ n s, GoMap.lookup c.nServices n = some s → ∀ a post w,
      K₁.call s.service a post w = K₂.call s.service (f a) post w)
    (ev : α₁) (n : String) (s : stService σ) (hl : GoMap.lookup c.nServices n = some s)
    (w : σ) :
    postPart K₂ c (f ev) s w =
      ((postPart K₁ c ev s w).1, (postPart K₁ c ev s w).2.map (Invocation.mapArgs f)) := by
  unfold postPart
  rw [← hcall n s hl]
  by_cases hr : (K₁.call s.service ev false w).1.1 = ""
  · simp [hr]
  · simp only [ne_eq, hr, not_false_eq_true, if_true]
    exact postLoop_mapArgs K₁ K₂ f hf hcall ev _ _ _

theorem tierLoop_mapArgs (hf : ∀ a s, f (K₁.withMsg a s) = K₂.withMsg (f a) s)
    (hcall : ∀ n s, GoMap.lookup c.nServices n = some s → ∀ a post w,
      K₁.call s.service a post w = K₂.call s.service (f a) post w)
    (ev : α₁) (names : List String) (tr : Bool) (w : σ) :
    tierLoop K₂ c (f ev) names tr w =
      ((tierLoop K₁ c ev names tr w).1, (tierLoop K₁ c ev names tr w).2.1,
       (tierLoop K₁ c ev names tr w).2.2.map (Invocation.mapArgs f)) := by
  induction names generalizing tr w with
  | nil => rfl
  | cons n rest ih =>
    cases hl : GoMap.lookup c.nServices n with
    | none =>
      rw [tierLoop_cons_none K₂ c (f ev) n rest tr w hl, tierLoop_cons_none K₁ c ev n rest tr w hl]
      exact ih tr w
    | some s =>
      rw [tierLoop_cons_some K₂ c (f ev) n rest tr w s hl,
        tierLoop_cons_some K₁ c ev n rest tr w s hl,
        postPart_mapArgs K₁ K₂ f hf hcall ev n s hl w, ← hcall n s hl, ih]
      simp [Invocation.mapArgs]

theorem priorityLoop_mapArgs (hf : ∀ a s, f (K₁.withMsg a s) = K₂.withMsg (f a) s)
    (hcall : ∀ n s, GoMap.lookup c.nServices n = some s → ∀ a post w,
      K₁.call s.service a post w = K₂.call s.service (f a) post w)
    (ev : α₁) (ps : List Int) (w : σ) :
    priorityLoop K₂ c (f ev) ps w =
      ((priorityLoop K₁ c ev ps w).1,
       (priorityLoop K₁ c ev ps w).2.map (Invocation.mapArgs f)) := by
  induction ps generalizing w with
  | nil => rfl
  | cons p rest ih =>
    have ht := tierLoop_mapArgs K₁ K₂ f hf hcall ev (tierOf c.pServiceNames p) false w
    by_cases hp : p < 0
    · rw [priorityLoop_neg K₂ c (f ev) p rest w hp, priorityLoop_neg K₁ c ev p rest w hp]
      exact ih w
    · by_cases he : tierOf c.pServiceNames p = []
      · rw [priorityLoop_empty K₂ c (f ev) p rest w he, priorityLoop_empty K₁ c ev p rest w he]
        exact ih w
      · have hp0 : 0 ≤ p := not_lt.mp hp
        cases hv : (tierLoop K₁ c ev (tierOf c.pServiceNames p) false w).1 with
        | false =>
          have hv2 : (tierLoop K₂ c (f ev) (tierOf c.pServiceNames p) false w).1 = false := by
            rw [ht]; exact hv
          rw [priorityLoop_closed K₂ c (f ev) p rest w hp0 he hv2,
            priorityLoop_closed K₁ c ev p rest w hp0 he hv, ht]
        | true =>
          have hv2 : (tierLoop K₂ c (f ev) (tierOf c.pServiceNames p) false w).1 = true := by
            rw [ht]; exact hv
          rw [priorityLoop_open K₂ c (f ev) p rest w hp0 he hv2,
            priorityLoop_open K₁ c ev p rest w hp0 he hv, ht]
          simp only [ih, List.map_append]

end SameShape

/-- **C17.** On a controller (reachable or not) whose registered handlers
return the same and change their state in the same way on a group message and on
the private message with the same sub-type, message id, sender, text, font and
`post` flag: for every group event and the private event with these same fields,
`OnGroupMsg` and `OnPrivateMsg` make the same sequence of (handler name, message
text, post flag) invocations, return the same code and end in the same handler
state. -/
theorem group_private_same_shape (c : Controller σ) (order : List Int)
    (hsame : ∀ n s, GoMap.lookup c.nServices n = some s → ∀ ev post w,
      s.service.OnGroupMsg ev post w = s.service.OnPrivateMsg ev.toPrivate post w)
    (gev : GroupMsg) (pev : PrivateMsg) (hev : pev = gev.toPrivate) (w : σ) :
    (OnGroupMsg c order gev w).trace.map groupView =
      (OnPrivateMsg c order pev w).trace.map privateView ∧
    (OnGroupMsg c order gev w).code = (OnPrivateMsg c order pev w).code ∧
    (OnGroupMsg c order gev w).world = (OnPrivateMsg c order pev w).world := by
  subst hev
  have h := priorityLoop_mapArgs (groupKind : EventKind σ GroupMsg) privateKind
    GroupMsg.toPrivate (fun _ _ => rfl) hsame gev (sortInts order) w
  rw [OnGroupMsg_eq, OnPrivateMsg_eq, h]
  refine ⟨?_, rfl, rfl⟩
  simp only [List.map_map]
  rfl

theorem GoMap.mem_of_lookup {κ β : Type} [DecidableEq κ] {m : GoMap κ β} {k : κ} {v : β}
    (h : GoMap.lookup m k = some v) : (k, v) ∈ m := by
  induction m with
  | nil => simp [GoMap.lookup] at h
  | cons b rest ih =>
    obtain ⟨k', v'⟩ := b
    by_cases hk : k' = k
    · simp only [GoMap.lookup, hk, if_true, Option.some.injEq] at h
      simp [hk, h]
    · simp only [GoMap.lookup, hk, if_false] at h
      exact List.mem_cons_of_mem _ (ih h)

/-- Witness of C17 on `ctrlPost`, whose handlers treat both kinds of message
alike. -/
theorem group_private_same_shape_witness :
    samplePrivate = ({ sampleGroup with subType := 11, msgID := 8 } : GroupMsg).toPrivate ∧
    (OnGroupMsg ctrlPost [5, 0] { sampleGroup with subType := 11, msgID := 8 } 5).trace.map
        groupView =
      [("p", "hello", false), ("log", "X", true), ("log", "X", true), ("q", "hello", false),
       ("log", "hello", false), ("p", "Z", true)] ∧
    ((OnGroupMsg ctrlPost [5, 0] { sampleGroup with subType := 11, msgID := 8 } 5).trace.map
        groupView =
        (OnPrivateMsg ctrlPost [5, 0] samplePrivate 5).trace.map privateView ∧
      (OnGroupMsg ctrlPost [5, 0] { sampleGroup with subType := 11, msgID := 8 } 5).code =
        (OnPrivateMsg ctrlPost [5, 0] samplePrivate 5).code ∧
      (OnGroupMsg ctrlPost [5, 0] { sampleGroup with subType := 11, msgID := 8 } 5).world =
        (OnPrivateMsg ctrlPost [5, 0] samplePrivate 5).world) :=
  ⟨by decide, by decide,
    group_private_same_shape ctrlPost [5, 0]
      (fun n s h => by
        have hm := GoMap.mem_of_lookup h
        rw [ctrlPost_nServices] at hm
        simp only [List.mem_cons, Prod.mk.injEq, List.mem_nil_iff, or_false] at hm
        rcases hm with ⟨_, rfl⟩ | ⟨_, rfl⟩ | ⟨_, rfl⟩ <;> exact fun _ _ _ => rfl)
      { sampleGroup with subType := 11, msgID := 8 } samplePrivate (by decide) 5⟩

/-! ## Post-handlers are found by name -/

theorem BlockTrace.after_primary_args {K : EventKind σ α} {c : Controller σ} {ev : α}
    {t : List (Invocation α)} (h : BlockTrace K c ev t) :
    ∀ pre g suf, t = pre ++ g :: suf → g.post = false →
      ∀ x ∈ suf.takeWhile (fun x => x.post), x.post = true ∧ x.args = K.withMsg ev g.reply := by
  induction h with
  | nil => intro pre g suf h; simp at h
  | block g0 posts0 rest0 s h1 _ _ h4 _ hrest ih =>
    intro pre g suf hsplit hg
    cases pre with
    | nil =>
      simp only [List.nil_append, List.cons.injEq] at hsplit
      obtain ⟨rfl, rfl⟩ := hsplit
      rw [List.takeWhile_append_of_pos (fun a ha => (h4 a ha).1), hrest.takeWhile_post,
        List.append_nil]
      exact h4
    | cons a pre1 =>
      simp only [List.cons_append, List.cons.injEq] at hsplit
      obtain ⟨_, hsplit⟩ := hsplit
      rcases List.append_eq_append_iff.1 hsplit.symm with ⟨a', hA, hB⟩ | ⟨c', _, hB⟩
      · cases a' with
        | nil =>
          simp only [List.append_nil, List.nil_append] at hA hB
          exact ih [] g suf (by simpa using hB.symm) hg
        | cons x a'' =>
          simp only [List.cons_append, List.cons.injEq] at hB
          have hx : x ∈ posts0 := by rw [hA]; simp
          rw [hB.1, (h4 x hx).1] at hg
          cases hg
      · exact ih c' g suf hB hg

theorem post_by_name_generic (K : EventKind σ α) {c : Controller σ} (hc : WellFormed c)
    (ev : α) (ps : List Int) (w : σ) (pre : List (Invocation α)) (g : Invocation α)
    (suf : List (Invocation α)) (r : stService σ) (n : String)
    (hs : (priorityLoop K c ev ps w).2 = pre ++ g :: suf) (hg : g.post = false)
    (hr : g.reply ≠ "") (hl : GoMap.lookup c.nServices g.name = some r)
    (hn : n ∈ r.postServiceNames) (hreg : registered c n = true) :
    ∃ e ∈ suf.takeWhile (fun x => x.post),
      e.name = n ∧ e.post = true ∧ e.args = K.withMsg ev g.reply := by
  have hb := priorityLoop_blocks K hc.name_key ev ps w
  obtain ⟨s, hs', h⟩ := hb.after_primary pre g suf hs hg
  rw [hl] at hs'
  cases hs'
  simp only [hr, if_false] at h
  have hm : n ∈ (suf.takeWhile (fun x => x.post)).map (fun x => x.name) := by
    rw [h]; exact List.mem_filter.2 ⟨hn, hreg⟩
  obtain ⟨e, he, hen⟩ := List.mem_map.1 hm
  have ha := hb.after_primary_args pre g suf hs hg e he
  exact ⟨e, he, hen, ha.1, ha.2⟩

/-- **C18.** On a reachable controller, in `OnGroupMsg` and in `OnPrivateMsg`:
when a primary invocation of the record `r` returns a non-empty reply and
`r.postServiceNames` contains a registered name `n`, the handler registered
under `n` is invoked with `post = true` and with the reply as message text,
among the post invocations that follow that primary invocation.  Nothing is
asked of the priority of `n`: it may be negative, and it may be a tier the
dispatch does not reach. -/
theorem post_by_name_only (c : Controller σ) (hc : Reachable c) (order : List Int)
    (gev : GroupMsg) (pev : PrivateMsg) (w : σ) :
    (∀ pre g suf r n, (OnGroupMsg c order gev w).trace = pre ++ g :: suf → g.post = false →
      g.reply ≠ "" → GoMap.lookup c.nServices g.name = some r → n ∈ r.postServiceNames →
      registered c n = true →
      ∃ e ∈ suf.takeWhile (fun x => x.post), e.name = n ∧ e.post = true ∧
        e.args = { subType := gev.subType, msgID := gev.msgID, fromGroup := gev.fromGroup,
                   fromQQ := gev.fromQQ, fromAnonymous := gev.fromAnonymous,
                   msg := g.reply, font := gev.font }) ∧
    (∀ pre g suf r n, (OnPrivateMsg c order pev w).trace = pre ++ g :: suf → g.post = false →
      g.reply ≠ "" → GoMap.lookup c.nServices g.name = some r → n ∈ r.postServiceNames →
      registered c n = true →
      ∃ e ∈ suf.takeWhile (fun x => x.post), e.name = n ∧ e.post = true ∧
        e.args = { subType := pev.subType, msgID := pev.msgID, fromQQ := pev.fromQQ,
                   msg := g.reply, font := pev.font }) := by
  have hw := wellFormed_of_reachable hc
  rw [OnGroupMsg_trace, OnPrivateMsg_trace]
  exact ⟨fun pre g suf r n hs hg hr hl hn hreg =>
      post_by_name_generic groupKind hw gev _ w pre g suf r n hs hg hr hl hn hreg,
    fun pre g suf r n hs hg hr hl hn hreg =>
      post_by_name_generic privateKind hw pev _ w pre g suf r n hs hg hr hl hn hreg⟩

/-- Witness of C18: `A` at priority 0 names `B` and returns (`X`, false).  With
`B` at priority 1 (`ctrlHigh`) and with `B` at priority -1 (`ctrlLow`), `B` has
exactly one invocation, with text `X` and `post = true`. -/
theorem post_by_name_only_witness :
    Reachable ctrlHigh ∧ Reachable ctrlLow ∧
    priorityOf ctrlHigh "B" = some 1 ∧ priorityOf ctrlLow "B" = some (-1) ∧
    (OnGroupMsg ctrlHigh [1, 0] sampleGroup 5).trace.map groupView =
      [("A", "hello", false), ("B", "X", true)] ∧
    (OnGroupMsg ctrlLow [-1, 0] sampleGroup 5).trace.map groupView =
      [("A", "hello", false), ("B", "X", true)] ∧
    (OnPrivateMsg ctrlHigh [1, 0] samplePrivate 5).trace.map privateView =
      [("A", "hello", false), ("B", "X", true)] ∧
    (OnPrivateMsg ctrlLow [-1, 0] samplePrivate 5).trace.map privateView =
      [("A", "hello", false), ("B", "X", true)] ∧
    (∃ e ∈ ((OnGroupMsg ctrlHigh [1, 0] sampleGroup 5).trace.drop 1).takeWhile
        (fun x => x.post),
      e.name = "B" ∧ e.post = true ∧
        e.args = { subType := sampleGroup.subType, msgID := sampleGroup.msgID,
                   fromGroup := sampleGroup.fromGroup, fromQQ := sampleGroup.fromQQ,
                   fromAnonymous := sampleGroup.fromAnonymous, msg := "X",
                   font := sampleGroup.font }) ∧
    (∃ e ∈ ((OnPrivateMsg ctrlLow [-1, 0] samplePrivate 5).trace.drop 1).takeWhile
        (fun x => x.post),
      e.name = "B" ∧ e.post = true ∧
        e.args = { subType := samplePrivate.subType, msgID := samplePrivate.msgID,
                   fromQQ := samplePrivate.fromQQ, msg := "X", font := samplePrivate.font }) :=
  ⟨reachable_registerAll Reachable.new _ _, reachable_registerAll Reachable.new _ _,
    by decide, by decide, by decide, by decide, by decide, by decide,
    (post_by_name_only ctrlHigh (reachable_registerAll Reachable.new _ _) [1, 0] sampleGroup
      samplePrivate 5).1 []
      { name := "A", args := sampleGroup, post := false, reply := "X", transparent := false }
      ((OnGroupMsg ctrlHigh [1, 0] sampleGroup 5).trace.drop 1) recA "B" (by decide) rfl
      (by decide) rfl (by decide) (by decide),
    (post_by_name_only ctrlLow (reachable_registerAll Reachable.new _ _) [-1, 0] sampleGroup
      samplePrivate 5).2 []
      { name := "A", args := samplePrivate, post := false, reply := "X", transparent := false }
      ((OnPrivateMsg ctrlLow [-1, 0] samplePrivate 5).trace.drop 1) recA "B" (by decide) rfl
      (by decide) rfl (by decide) (by decide)⟩

/-! ## Each name once in the priority index -/

theorem index_nodup {c : Controller σ} (hc : WellFormed c) (hx : IndexExact c) :
    ((GoMap.keys c.pServiceNames).flatMap (tierOf c.pServiceNames)).Nodup := by
  refine List.nodup_flatMap.2 ⟨fun p _ => hx.tier_nodup p, ?_⟩
  refine hc.keys_nodup.imp ?_
  intro p q hpq n hp hq
  have h1 := priorityOf_of_mem_tier hc hp
  rw [priorityOf_of_mem_tier hc hq] at h1
  exact hpq (Option.some.inj h1).symm

theorem mem_keys_of_mem_tier {c : Controller σ} {p : Int} {n : String}
    (h : n ∈ tierOf c.pServiceNames p) : p ∈ GoMap.keys c.pServiceNames := by
  by_contra hk
  rw [tierOf_of_not_mem_keys _ p hk] at h
  exact absurd h (List.not_mem_nil n)

theorem name_once_generic {c : Controller σ} (hc : WellFormed c) (hx : IndexExact c)
    (n : String) (s : stService σ) (h : GoMap.lookup c.nServices n = some s) :
    (tierOf c.pServiceNames s.priority).count n = 1 ∧
    (∀ p, p ≠ s.priority → n ∉ tierOf c.pServiceNames p) ∧
    ((GoMap.keys c.pServiceNames).flatMap (tierOf c.pServiceNames)).count n = 1 := by
  have hm := hx.complete n s h
  refine ⟨List.count_eq_one_of_mem (hx.tier_nodup _) hm, ?_, ?_⟩
  · intro p hp hmem
    obtain ⟨s', hs', hpr⟩ := hc.tier_sound p n hmem
    rw [h] at hs'
    cases hs'
    exact hp hpr.symm
  · exact List.count_eq_one_of_mem (index_nodup hc hx)
      (List.mem_flatMap.2 ⟨s.priority, mem_keys_of_mem_tier hm, hm⟩)

/-- **C19.** On a reachable controller every registered name occurs exactly
once in the priority index: once in the list of the tier of its record's
priority, in no other tier, hence once in all tiers taken together.  So in a
dispatch by `OnGroupMsg` or `OnPrivateMsg` no handler has more than one
invocation with `post = false`. -/
theorem name_once_in_index (c : Controller σ) (hc : Reachable c) (order : List Int)
    (ho : order.Perm (GoMap.keys c.pServiceNames)) (gev : GroupMsg) (pev : PrivateMsg)
    (w : σ) :
    (∀ n s, GoMap.lookup c.nServices n = some s →
      (tierOf c.pServiceNames s.priority).count n = 1 ∧
      (∀ p, p ≠ s.priority → n ∉ tierOf c.pServiceNames p) ∧
      ((GoMap.keys c.pServiceNames).flatMap (tierOf c.pServiceNames)).count n = 1) ∧
    (∀ n, ((primaries (OnGroupMsg c order gev w).trace).map (fun e => e.name)).count n ≤ 1) ∧
    (∀ n,
      ((primaries (OnPrivateMsg c order pev w).trace).map (fun e => e.name)).count n ≤ 1) := by
  have hw := wellFormed_of_reachable hc
  have hx := indexExact_of_reachable hc
  have hs := sortInts_keys hw ho
  rw [OnGroupMsg_trace, OnPrivateMsg_trace]
  exact ⟨fun n s h => name_once_generic hw hx n s h,
    List.nodup_iff_count_le_one.1 (primaries_names_nodup groupKind hw hx gev _ hs w),
    List.nodup_iff_count_le_one.1 (primaries_names_nodup privateKind hw hx pev _ hs w)⟩

/-- Witness of C19 on `ctrlTwo`: `second` is listed once, in tier 0, and has one
primary invocation. -/
theorem name_once_in_index_witness :
    Reachable ctrlTwo ∧ [1, 0].Perm (GoMap.keys ctrlTwo.pServiceNames) ∧
    GoMap.lookup ctrlTwo.nServices "second" =
      some (NewService "second" (constHandler "" false) 0) ∧
    ((tierOf ctrlTwo.pServiceNames 0).count "second" = 1 ∧
      (∀ p, p ≠ 0 → "second" ∉ tierOf ctrlTwo.pServiceNames p) ∧
      ((GoMap.keys ctrlTwo.pServiceNames).flatMap (tierOf ctrlTwo.pServiceNames)).count
        "second" = 1) ∧
    ((primaries (OnGroupMsg ctrlTwo [1, 0] sampleGroup 5).trace).map
      (fun e => e.name)).count "second" = 1 ∧
    (∀ n, ((primaries (OnGroupMsg ctrlTwo [1, 0] sampleGroup 5).trace).map
      (fun e => e.name)).count n ≤ 1) ∧
    (∀ n, ((primaries (OnPrivateMsg ctrlTwo [1, 0] samplePrivate 5).trace).map
      (fun e => e.name)).count n ≤ 1) :=
  have h := name_once_in_index ctrlTwo (reachable_registerAll Reachable.new _ _) [1, 0]
    (by decide) sampleGroup samplePrivate 5
  ⟨reachable_registerAll Reachable.new _ _, by decide, rfl,
    h.1 "second" (NewService "second" (constHandler "" false) 0) rfl, by decide, h.2.1, h.2.2⟩

/-! ## The two skip branches -/

theorem lookup_tier_of_mem_keys (m : GoMap Int (List String)) (p : Int)
    (h : p ∈ GoMap.keys m) : GoMap.lookup m p = some (tierOf m p) := by
  have hs := (GoMap.lookup_isSome_iff m p).2 h
  unfold tierOf
  cases hl : GoMap.lookup m p with
  | none => rw [hl] at hs; cases hs
  | some l => rfl

theorem tier_all_primaries (K : EventKind σ α) {c : Controller σ} (hc : WellFormed c)
    (ev : α) (p : Int) (tr : Bool) (w : σ) :
    (primaries (tierLoop K c ev (tierOf c.pServiceNames p) tr w).2.2).map (fun e => e.name) =
      tierOf c.pServiceNames p := by
  rw [tierLoop_primaries_names K hc.name_key]
  exact List.filter_eq_self.2 (fun n hn => registered_of_mem_tier hc hn)

/-- **C20.** On a reachable controller every key of the priority index maps to
a non-empty list, and every name in it is a key of the registry.  So in
`OnGroupMsg` and `OnPrivateMsg` the test `len(serviceNames) == 0` fails for
every priority the outer loop can visit, and the test `!exist` fails for every
name the middle loop can visit: neither skip branch is taken.  The middle loop
run on a tier of the index therefore makes a primary invocation for every name
of the tier, at least one: the vote it computes is a vote of handlers. -/
theorem skip_branches_dead (c : Controller σ) (hc : Reachable c) (order : List Int)
    (ho : order.Perm (GoMap.keys c.pServiceNames)) (gev : GroupMsg) (pev : PrivateMsg) :
    (∀ p ∈ GoMap.keys c.pServiceNames,
      GoMap.lookup c.pServiceNames p = some (tierOf c.pServiceNames p) ∧
      tierOf c.pServiceNames p ≠ [] ∧
      ∀ n ∈ tierOf c.pServiceNames p, n ∈ GoMap.keys c.nServices) ∧
    (∀ p ∈ sortInts order, ¬ (tierOf c.pServiceNames p).length = 0) ∧
    (∀ p ∈ sortInts order, ∀ n ∈ tierOf c.pServiceNames p,
      ∃ s, GoMap.lookup c.nServices n = some s) ∧
    (∀ p ∈ sortInts order, ∀ w,
      (primaries (tierLoopGroup c gev (tierOf c.pServiceNames p) false w).2.2).map
          (fun e => e.name) = tierOf c.pServiceNames p ∧
        primaries (tierLoopGroup c gev (tierOf c.pServiceNames p) false w).2.2 ≠ [] ∧
      (primaries (tierLoopPrivate c pev (tierOf c.pServiceNames p) false w).2.2).map
          (fun e => e.name) = tierOf c.pServiceNames p ∧
        primaries (tierLoopPrivate c pev (tierOf c.pServiceNames p) false w).2.2 ≠ []) := by
  have hw := wellFormed_of_reachable hc
  have hx := indexExact_of_reachable hc
  have hmem : ∀ p, p ∈ sortInts order → p ∈ GoMap.keys c.pServiceNames := fun p hp =>
    ((sortInts_perm order).trans ho).mem_iff.1 hp
  have hres : ∀ p, ∀ n ∈ tierOf c.pServiceNames p, ∃ s, GoMap.lookup c.nServices n = some s := by
    intro p n hn
    obtain ⟨s, hs, _⟩ := hw.tier_sound p n hn
    exact ⟨s, hs⟩
  refine ⟨?_, ?_, fun p _ => hres p, ?_⟩
  · intro p hp
    refine ⟨lookup_tier_of_mem_keys _ p hp, hx.tier_nonempty p hp, ?_⟩
    intro n hn
    obtain ⟨s, hs⟩ := hres p n hn
    exact GoMap.mem_keys_of_lookup hs
  · intro p hp hlen
    exact hx.tier_nonempty p (hmem p hp) (List.length_eq_zero.1 hlen)
  · intro p hp w
    have hne := hx.tier_nonempty p (hmem p hp)
    have hg := tier_all_primaries groupKind hw gev p false w
    have hpv := tier_all_primaries privateKind hw pev p false w
    rw [tierLoopGroup_eq, tierLoopPrivate_eq]
    refine ⟨hg, ?_, hpv, ?_⟩
    · intro h0
      rw [h0] at hg
      exact hne hg.symm
    · intro h0
      rw [h0] at hpv
      exact hne hpv.symm

/-- Witness of C20 on `ctrlTwo`: both tiers are non-empty and all their names
are registered. -/
theorem skip_branches_dead_witness :
    Reachable ctrlTwo ∧ [1, 0].Perm (GoMap.keys ctrlTwo.pServiceNames) ∧
    GoMap.keys ctrlTwo.pServiceNames = [0, 1] ∧ sortInts [1, 0] = [0, 1] ∧
    (∀ p ∈ GoMap.keys ctrlTwo.pServiceNames,
      GoMap.lookup ctrlTwo.pServiceNames p = some (tierOf ctrlTwo.pServiceNames p) ∧
      tierOf ctrlTwo.pServiceNames p ≠ [] ∧
      ∀ n ∈ tierOf ctrlTwo.pServiceNames p, n ∈ GoMap.keys ctrlTwo.nServices) ∧
    ¬ (tierOf ctrlTwo.pServiceNames 0).length = 0 ∧
    (∃ s, GoMap.lookup ctrlTwo.nServices "second" = some s) ∧
    ((primaries (tierLoopGroup ctrlTwo sampleGroup (tierOf ctrlTwo.pServiceNames 0) false
          5).2.2).map (fun e => e.name) = tierOf ctrlTwo.pServiceNames 0 ∧
      primaries (tierLoopGroup ctrlTwo sampleGroup (tierOf ctrlTwo.pServiceNames 0) false
          5).2.2 ≠ [] ∧
      (primaries (tierLoopPrivate ctrlTwo samplePrivate (tierOf ctrlTwo.pServiceNames 0) false
          5).2.2).map (fun e => e.name) = tierOf ctrlTwo.pServiceNames 0 ∧
      primaries (tierLoopPrivate ctrlTwo samplePrivate (tierOf ctrlTwo.pServiceNames 0) false
          5).2.2 ≠ []) :=
  have h := skip_branches_dead ctrlTwo (reachable_registerAll Reachable.new _ _) [1, 0]
    (by decide) sampleGroup samplePrivate
  ⟨reachable_registerAll Reachable.new _ _, by decide, by decide, by decide, h.1,
    h.2.1 0 (by decide), h.2.2.1 0 (by decide) "second" (by decide),
    h.2.2.2 0 (by decide) 5⟩

/-! ## What a dispatch does to the controller -/

end STService
